import Mathlib

/-!
# vdr-plugin-play: directory scanner and file browser

A shallow embedding of `readdir.c` (suffix filters, `IsDirectory`, `IsArchive`,
`ScanDirectory`, `ReadDirectory`) and of the `cBrowser` part of `play.cpp`
(`CreateMenu`, `NewDir`, `LevelUp`, `Selected`), followed by theorems about them.

Conventions of the embedding:

* a C string is the list of its bytes before the terminating NUL;
* a NULL-terminated `NameFilter` table is the list of its entries before the
  `{0, NULL}` terminator, a NULL table pointer is `none`;
* what the operating system does (directory listings, `stat`, allocation) is an
  explicit argument; `errno` is threaded through the functions that touch it: a
  library call that fails sets it to a nonzero code, one that succeeds leaves it
  as it is (no library function sets `errno` to 0);
* `int` and `size_t` values are natural numbers or integers without wrap-around:
  name lengths, entry counts and directory sizes stay far below `2^31`.
-/

namespace Play

/-! ## C strings -/

/-- A C string: its bytes, without the terminating NUL. -/
abbrev CStr := List Nat

/-- The bytes of an ASCII literal. -/
def cstr (s : String) : CStr := s.toList.map Char.toNat

/-- No byte of the string is NUL (true of every C string). -/
def NoNul (s : CStr) : Prop := ∀ b ∈ s, b ≠ 0

instance (s : CStr) : Decidable (NoNul s) := by
  unfold NoNul; infer_instance

/-- ASCII `tolower` on a byte. -/
def tolower (c : Nat) : Nat := if 65 ≤ c ∧ c ≤ 90 then c + 32 else c

/-- `strcasecmp(s1, s2)`: the difference of the first pair of bytes that differ
after lower-casing, the terminating NUL included; 0 when there is none. -/
def strcasecmp : CStr → CStr → Int
  | [], [] => 0
  | [], b :: _ => 0 - (tolower b : Int)
  | a :: _, [] => (tolower a : Int) - 0
  | a :: s1, b :: s2 =>
    if tolower a = tolower b then strcasecmp s1 s2 else (tolower a : Int) - (tolower b : Int)

/-- `strcmp(s1, s2)`: the difference of the first pair of bytes that differ,
the terminating NUL included; 0 when there is none. -/
def strcmp : CStr → CStr → Int
  | [], [] => 0
  | [], b :: _ => 0 - (b : Int)
  | a :: _, [] => (a : Int) - 0
  | a :: s1, b :: s2 => if a = b then strcmp s1 s2 else (a : Int) - (b : Int)

/-! ## readdir.h / readdir.c -/

/-- The `NameFilter` struct of readdir.h: filter string length, filter string. The
length is `sizeof(x) - 1` in every table of the program, never negative. -/
structure NameFilter where
  Length : Nat
  String : CStr
deriving DecidableEq, Repr

/-- The macro `FILTER(x)`, that is `{ sizeof(x) - 1, x }`. -/
def FILTER (x : String) : NameFilter := ⟨(cstr x).length, cstr x⟩

/-- The loop over a name filter table that `FilterIsFile` and `IsArchive` share:
`for (i = 0; tbl[i].String; ++i)
   if (len >= tbl[i].Length && !strcasecmp(name + len - tbl[i].Length, tbl[i].String))`
leaves the loop as found; `false` when the loop runs to the terminator. -/
def suffixLoop (name : CStr) : List NameFilter → Bool
  | [] => false
  | f :: rest =>
    if f.Length ≤ name.length
        ∧ strcasecmp (name.drop (name.length - f.Length)) f.String = 0 then
      true
    else
      suffixLoop name rest

/-- The table `ArchiveFilters` of `IsArchive`. -/
def ArchiveFilters : List NameFilter :=
  [FILTER ".cbz", FILTER ".cbr", FILTER ".zip", FILTER ".rar", FILTER ".tar",
   FILTER ".tar.gz", FILTER ".tgz"]

/-- The function `IsArchive(filename)`. Its body is compiled under `#ifdef USE_AVFS`;
`USE_AVFS` is that build switch (readdir.c itself defines only `__USE_AVFS`). -/
def IsArchive (USE_AVFS : Bool) (filename : CStr) : Int :=
  if USE_AVFS then
    if suffixLoop filename ArchiveFilters then 1 else 0
  else
    0

/-! ### The operating system, as seen by the scanner -/

/-- The `d_type` of a directory entry. -/
inductive DType where
  | DT_UNKNOWN | DT_FIFO | DT_CHR | DT_DIR | DT_BLK | DT_REG | DT_LNK | DT_SOCK | DT_WHT
deriving DecidableEq, Repr

/-- The fields of `struct dirent` the scanner reads. -/
structure dirent where
  d_name : CStr
  d_type : DType
deriving DecidableEq, Repr

/-- The function `virt_stat` as the code uses it: `none` when the call fails (it
returns a negative value and sets `errno`), else whether `S_ISDIR(st_mode)`. -/
abbrev Stat := CStr → Option Bool

/-- The value `errno` holds after a failed `stat`/`fstat`/`readdir` (the code only
tests `errno` against 0). -/
def ENOENT : Nat := 2

/-- The value `errno` holds after a failed `malloc`/`realloc`. -/
def ENOMEM : Nat := 12

/-- One round of the `while ((entry = virt_readdir(dir)))` loop, as the operating
system answers it: the entry that `virt_readdir` returns and, for the calls the
round may reach, their outcome. -/
structure ReadStep where
  /-- the entry returned by `virt_readdir` -/
  entry : dirent
  /-- `malloc(len)` for the copy of the name succeeds -/
  mallocOk : Bool
  /-- `virt_fstat(dirfd(dir))` when the array is full: `st_size`, `none` on failure -/
  fstat : Option Nat
  /-- `realloc(names, ...)` returns a block, not NULL -/
  reallocOk : Bool
deriving DecidableEq

/-- What the operating system answers during one `ScanDirectory` call. -/
structure DirStream where
  /-- `virt_opendir(name)` succeeds -/
  opens : Bool
  /-- the first `virt_fstat(dirfd(dir))`: `st_size`, `none` on failure -/
  fstat : Option Nat
  /-- `malloc(arraysz * sizeof(*names))` succeeds -/
  mallocOk : Bool
  /-- the entries `virt_readdir` returns, in order, before it returns NULL -/
  steps : List ReadStep
  /-- the final NULL of `virt_readdir` is an error (`errno` set), not the end -/
  readErr : Bool

/-- The constant `ConfigShowHiddenFiles` of readdir.c. The functions below take
the flag as an argument, so that both settings can be stated. -/
def ConfigShowHiddenFiles : Bool := false

/-- The function `IsDirectory(filename)` with `errno` threaded: `-1` and `errno`
set when `virt_stat` fails, else `S_ISDIR(stat_buf.st_mode)`. -/
def IsDirectory (stat : Stat) (filename : CStr) (errno : Nat) : Int × Nat :=
  match stat filename with
  | none => (-1, ENOENT)
  | some d => (if d then 1 else 0, errno)

/-- The function `FilterIsDirectory(dirent)`; `BaseDir` is the global of that name,
`showHidden` the value of `ConfigShowHiddenFiles`. -/
def FilterIsDirectory (showHidden : Bool) (stat : Stat) (BaseDir : CStr) (d : dirent)
    (errno : Nat) : Int × Nat :=
  let len := d.d_name.length
  if len ≠ 0 ∧ d.d_name[0]? = some 46 ∧ showHidden = false then
    (0, errno)
  else if len ≠ 0 ∧ d.d_name[0]? = some 46
      ∧ (len = 1 ∨ (len = 2 ∧ d.d_name[1]? = some 46)) then
    (0, errno)
  else if d.d_type = DType.DT_DIR then
    (1, errno)
  else if d.d_type = DType.DT_LNK then
    IsDirectory stat (BaseDir ++ d.d_name) errno
  else if d.d_type ≠ DType.DT_UNKNOWN then
    (0, errno)
  else
    IsDirectory stat (BaseDir ++ d.d_name) errno

/-- The function `FilterIsFile(dirent)`; `BaseDir` and `NameFilters` are the globals
of those names, `showHidden` the value of `ConfigShowHiddenFiles`. -/
def FilterIsFile (showHidden : Bool) (stat : Stat) (BaseDir : CStr)
    (NameFilters : Option (List NameFilter)) (d : dirent) (errno : Nat) : Int × Nat :=
  let len := d.d_name.length
  if len ≠ 0 ∧ d.d_name[0]? = some 46 ∧ showHidden = false then
    (0, errno)
  else if (match NameFilters with
      | some tbl => suffixLoop d.d_name tbl
      | none => true) = false then
    (0, errno)
  else if d.d_type = DType.DT_REG then
    (1, errno)
  else if d.d_type = DType.DT_LNK then
    let r := IsDirectory stat (BaseDir ++ d.d_name) errno
    (if r.1 = 0 then 1 else 0, r.2)
  else if d.d_type ≠ DType.DT_UNKNOWN then
    (0, errno)
  else
    let r := IsDirectory stat (BaseDir ++ d.d_name) errno
    (if r.1 = 0 then 1 else 0, r.2)

/-- The comparison `q_cmp(s1, s2)`, that is `strcmp(*s1, *s2)`. -/
def q_cmp (s1 s2 : CStr) : Int := strcmp s1 s2

/-- The call `qsort(names, n, sizeof(*names), q_cmp)`. Two names compare equal
only when they are the same bytes, so every sorting algorithm gives the same
list; insertion sort stands for it. -/
def qsort (names : List CStr) : List CStr :=
  names.insertionSort (fun a b => q_cmp a b ≤ 0)

/-- The test `flag_dir ? FilterIsDirectory(entry) : FilterIsFile(entry)` of the
loop of `ScanDirectory`, with the globals `BaseDir = name`, `NameFilters = filter`
that `ScanDirectory` sets before the loop. -/
def entryFilter (showHidden : Bool) (stat : Stat) (name : CStr) (flag_dir : Int)
    (filter : Option (List NameFilter)) (entry : dirent) (errno : Nat) : Int × Nat :=
  if flag_dir ≠ 0 then FilterIsDirectory showHidden stat name entry errno
  else FilterIsFile showHidden stat name filter entry errno

/-- The locals of `ScanDirectory` that live across rounds of its loop. -/
structure ScanState where
  /-- the count `n` -/
  n : Nat
  /-- the array `names[0 .. n-1]` -/
  names : List CStr
  /-- the capacity `arraysz` -/
  arraysz : Nat
  /-- the global `errno` -/
  errno : Nat
  /-- whether `realloc(names, 0)` has given the array back to the allocator -/
  freed : Bool
deriving DecidableEq, Repr

/-- One round of the loop of `ScanDirectory` for the entry of `r`. The result is
the state after the round and whether the loop goes on (`false` is `break`).
A failing library call sets `errno`, with one exception: `realloc(names, 0)`,
asked for when the new `arraysz` is 0, frees the array and returns NULL with
`errno` as it was (glibc), so that `break` leaves the loop with the array gone
and `errno` unchanged. `r.reallocOk` at size 0 stands for an allocator that
returns a block there. -/
def scanStep (showHidden : Bool) (stat : Stat) (name : CStr) (flag_dir : Int)
    (filter : Option (List NameFilter)) (st : ScanState) (r : ReadStep) :
    ScanState × Bool :=
  let f := entryFilter showHidden stat name flag_dir filter r.entry st.errno
  if f.1 = 0 then
    -- skip hidden files, wrong kind, wrong suffix
    ({ st with errno := f.2 }, true)
  else if r.mallocOk = false then
    ({ st with errno := ENOMEM }, false)
  else if st.n + 1 ≥ st.arraysz then
    -- array full
    match r.fstat with
    | none => ({ st with errno := ENOENT }, false)
    | some st_size =>
      let arraysz := if st_size / (3 * 4) > st.arraysz then st_size / (3 * 4)
        else st.arraysz * 2
      if r.reallocOk = false then
        if arraysz = 0 then
          ({ st with arraysz := arraysz, errno := f.2, freed := true }, false)
        else
          ({ st with arraysz := arraysz, errno := ENOMEM }, false)
      else
        ({ st with n := st.n + 1, names := st.names ++ [r.entry.d_name],
                   arraysz := arraysz, errno := f.2 }, true)
  else
    ({ st with n := st.n + 1, names := st.names ++ [r.entry.d_name], errno := f.2 }, true)

/-- The loop `while ((entry = virt_readdir(dir)))` of `ScanDirectory` over the
entries the directory stream delivers; when they are used up `virt_readdir`
returns NULL, with `errno` set when `readErr`. -/
def scanLoop (showHidden : Bool) (stat : Stat) (name : CStr) (flag_dir : Int)
    (filter : Option (List NameFilter)) (readErr : Bool) :
    ScanState → List ReadStep → ScanState
  | st, [] => if readErr then { st with errno := ENOENT } else st
  | st, r :: rest =>
    let s := scanStep showHidden stat name flag_dir filter st r
    if s.2 then scanLoop showHidden stat name flag_dir filter readErr s.1 rest else s.1

/-- The out-parameter `*namelist` after the call. -/
inductive NameList where
  /-- the code did not write it -/
  | untouched
  /-- the code wrote NULL -/
  | null
  /-- the code wrote the array of these names -/
  | names (l : List CStr)
  /-- the code wrote the address of the array that `realloc(names, 0)` freed -/
  | freed
deriving DecidableEq, Repr

/-- The names that can be read through `*namelist`, none when it holds no array
or the address of a freed one. -/
def NameList.toList : NameList → List CStr
  | NameList.names l => l
  | _ => []

/-- The result of `ScanDirectory`: its return value and `*namelist`. -/
structure ScanResult where
  ret : Int
  namelist : NameList
deriving DecidableEq, Repr

/-- The function `ScanDirectory(name, flag_dir, filter, namelist)`. After
`realloc(names, 0)` has freed the array the code still holds its address in
`names`: with `errno` clear it hands that address back with the count `n`. (With
`errno` set from an earlier round the error path frees through that address
again; the result is -1 and NULL as for every reported error.) -/
def ScanDirectory (showHidden : Bool) (stat : Stat) (dir : DirStream) (name : CStr)
    (flag_dir : Int) (filter : Option (List NameFilter)) : ScanResult :=
  if dir.opens = false then
    ⟨-1, NameList.untouched⟩
  else
    match dir.fstat with
    | none => ⟨-1, NameList.untouched⟩
    | some st_size =>
      -- approximate size of name array
      let arraysz := if st_size ≠ 0 then st_size / (3 * 8) else 16
      if dir.mallocOk = false then
        ⟨-1, NameList.untouched⟩
      else
        let st := scanLoop showHidden stat name flag_dir filter dir.readErr
          ⟨0, [], arraysz, 0, false⟩ dir.steps
        if st.errno ≠ 0 then
          -- error happened
          ⟨-1, NameList.null⟩
        else if st.freed then
          ⟨(st.n : Int), NameList.freed⟩
        else
          ⟨(st.n : Int), NameList.names (qsort (st.names.take st.n))⟩

/-- The function `ReadDirectory(name, flag_dir, filter, cb_add, opaque)`: its
return value and the names it passes to `cb_add`, in order. When the scan hands
back a freed array nothing in it can be read, and the `free(names)` that ends
the function frees it a second time (`freesTwice`). -/
def ReadDirectory (showHidden : Bool) (stat : Stat) (dir : DirStream) (name : CStr)
    (flag_dir : Int) (filter : Option (List NameFilter)) : Int × List CStr :=
  let r := ScanDirectory showHidden stat dir name flag_dir filter
  if r.ret ≥ 0 then
    match r.namelist with
    | NameList.names l => (r.ret, l.take r.ret.toNat)
    | _ => (r.ret, [])
  else
    (r.ret, [])

/-- Whether `ReadDirectory` calls `free(names)` on an array that the scan had
already freed: the scan returned `n >= 0` and the address of the freed array. -/
def freesTwice (showHidden : Bool) (stat : Stat) (dir : DirStream) (name : CStr)
    (flag_dir : Int) (filter : Option (List NameFilter)) : Bool :=
  let r := ScanDirectory showHidden stat dir name flag_dir filter
  decide (r.ret ≥ 0) && decide (r.namelist = NameList.freed)

/-- The state of the loop of `ScanDirectory` after it has gone through the
rounds for `steps` without a `break`, and `none` when one of them leaves the
loop: the entry that `virt_readdir` delivers next is looked at only in the
first case. -/
def scanPrefix (showHidden : Bool) (stat : Stat) (name : CStr) (flag_dir : Int)
    (filter : Option (List NameFilter)) : ScanState → List ReadStep → Option ScanState
  | st, [] => some st
  | st, r :: rest =>
    let s := scanStep showHidden stat name flag_dir filter st r
    if s.2 then scanPrefix showHidden stat name flag_dir filter s.1 rest else none

/-! ## play.cpp: the file browser `cBrowser` -/

/-- The build configuration and the operating system one browser call runs in. -/
structure World where
  /-- the build switch `USE_AVFS` -/
  USE_AVFS : Bool
  /-- the value of `ConfigShowHiddenFiles` -/
  showHidden : Bool
  /-- the function `virt_stat` -/
  stat : Stat
  /-- what a scan of the directory at a path is answered -/
  opendir : CStr → DirStream

/-- The values of `eOSState` the browser returns. -/
inductive eOSState where
  | osUnknown | osContinue | osEnd | osBack | osPlugin
  | osUser1 | osUser2 | osUser3 | osUser4 | osUser5 | osUser6 | osUser7 | osUser8 | osUser9
deriving DecidableEq, Repr

/-- The statics `DirStackSize`, `DirStack` (`DirStackUsed` is the length of the
list, index 0 first), the member `Filter`, and of the `cOsdMenu` base class the
texts of its items and the index of the current item (-1 when there is none). -/
structure Browser where
  DirStackSize : Nat
  DirStack : List CStr
  Filter : Option (List NameFilter)
  items : List CStr
  current : Int
deriving DecidableEq, Repr

/-- The static `DirStackUsed`. -/
def Browser.DirStackUsed (b : Browser) : Nat := b.DirStack.length

/-- `strrchr(s, c)` for a byte `c` other than NUL: the part of `s` from the last
`c` on, `none` (NULL) when `s` has no `c`. -/
def strrchr : CStr → Nat → Option CStr
  | [], _ => none
  | a :: s, c =>
    match strrchr s c with
    | some r => some r
    | none => if a = c then some (a :: s) else none

/-- The function `cBrowser::CreateMenu()`: `Clear()`, the parent item when
`DirStackUsed > 1`, then what the two `ReadDirectory` calls on `DirStack[0]` add;
`Display()` makes the first item the current one. -/
def CreateMenu (w : World) (b : Browser) : Browser :=
  let top := b.DirStack.headD []
  let parent := if b.DirStackUsed > 1 then [top] else []
  let dirs := (ReadDirectory w.showHidden w.stat (w.opendir top) top 1 none).2
  let files := (ReadDirectory w.showHidden w.stat (w.opendir top) top 0 b.Filter).2
  let items := parent ++ dirs ++ files
  { b with items := items, current := if items = [] then -1 else 0 }

/-- The function `cBrowser::NewDir(path, filter)`. For an empty `path` the C code
reads `path[-1]`; the model then appends the separator. -/
def NewDir (w : World) (b : Browser) (path : CStr) (filter : Option (List NameFilter)) :
    Browser :=
  let pathname := if path.getLast? = some 47 then path else path ++ cstr "/"
  let size := if b.DirStackUsed ≥ b.DirStackSize then b.DirStackUsed + 1
    else b.DirStackSize
  CreateMenu w
    { b with DirStackSize := size, DirStack := pathname :: b.DirStack, Filter := filter }

/-- The constructor `cBrowser::cBrowser(title, path, filter)`, on the statics `b`
the previous browser left; `path = none` is the NULL path. -/
def cBrowser (w : World) (b : Browser) (path : Option CStr)
    (filter : Option (List NameFilter)) : Browser :=
  match path with
  | some p => NewDir w { b with DirStack := [], items := [], current := -1 } p filter
  | none => CreateMenu w { b with Filter := filter, items := [], current := -1 }

/-- The function `cBrowser::LevelUp()`. -/
def LevelUp (w : World) (b : Browser) : Browser × eOSState :=
  if b.DirStackUsed ≤ 1 then
    (b, eOSState.osEnd)
  else
    let down := b.DirStack.headD []
    let b1 := CreateMenu w { b with DirStack := b.DirStack.tail }
    -- select item, where we gone down
    let down := down.dropLast
    match strrchr down 47 with
    | some name =>
      match b1.items.findIdx? (fun text => strcmp text name.tail = 0) with
      | some i => ({ b1 with current := (i : Int) }, eOSState.osContinue)
      | none => (b1, eOSState.osContinue)
    | none => (b1, eOSState.osContinue)

/-- The function `cBrowser::Selected()`: the browser afterwards, the returned
state and the file name handed to `PlayFile`, if any. `none` when `Get(current)`
is NULL, which the code dereferences. -/
def Selected (w : World) (b : Browser) : Option (Browser × eOSState × Option CStr) :=
  if b.current < 0 then none else
  match b.items[b.current.toNat]? with
  | none => none
  | some text =>
    if b.current = 0 ∧ b.DirStackUsed > 1 then
      let r := LevelUp w b
      some (r.1, r.2, none)
    else
      let top := b.DirStack.headD []
      let filename := top ++ text
      if (IsDirectory w.stat filename 0).1 = 0 then
        if IsArchive w.USE_AVFS filename ≠ 0 then
          -- handle archives
          some (NewDir w b (filename ++ cstr "#") b.Filter, eOSState.osContinue, none)
        else
          some (b, eOSState.osEnd, some filename)
      else if strcmp text (cstr "AUDIO_TS") = 0 ∨ strcmp text (cstr "VIDEO_TS") = 0 then
        -- handle DVD image
        some (b, eOSState.osEnd, some (cstr "dvdnav:///" ++ top))
      else
        some (NewDir w b (filename ++ cstr "/") b.Filter, eOSState.osContinue, none)

/-- The browser states reached from opening the browser at `root` by Enter events
(the user moves the cursor to item `i` and presses Ok: `Selected`) and Leave
events (`LevelUp`), each in the world of its moment. -/
inductive Reachable (root : CStr) : Browser → Prop
  | opened (w : World) (b0 : Browser) (filter : Option (List NameFilter)) :
      Reachable root (cBrowser w b0 (some root) filter)
  | enter (w : World) (i : Int) (b b2 : Browser) (st : eOSState) (played : Option CStr) :
      Reachable root b → Selected w { b with current := i } = some (b2, st, played) →
      Reachable root b2
  | leave (w : World) (b : Browser) :
      Reachable root b → Reachable root (LevelUp w b).1

/-- The text `name + 1` that `LevelUp` derives from the removed stack entry
`down`: it overwrites the last byte of `down` with NUL and takes what follows the
last `/` of the rest; `none` when `strrchr` returns NULL. -/
def poppedName (down : CStr) : Option CStr :=
  match strrchr down.dropLast 47 with
  | some name => some name.tail
  | none => none

/-- The loop of `LevelUp` over the items of the menu: the first item whose text
equals `name` under `strcmp` becomes the current one (`SetCurrent`); the menu is
left as it is when there is none. -/
def selectByName (name : CStr) (b : Browser) : Browser :=
  match b.items.findIdx? (fun text => strcmp text name = 0) with
  | some i => { b with current := (i : Int) }
  | none => b

/-- The table `VideoFilters` of play.cpp. -/
def VideoFilters : List NameFilter :=
  [FILTER ".ts", FILTER ".avi", FILTER ".flv", FILTER ".iso", FILTER ".m4v", FILTER ".mkv",
   FILTER ".mov", FILTER ".mp4", FILTER ".mpg", FILTER ".vdr", FILTER ".vob", FILTER ".wmv"]

/-- The table `AudioFilters` of play.cpp. -/
def AudioFilters : List NameFilter :=
  [FILTER ".flac", FILTER ".mp3", FILTER ".ogg", FILTER ".wav"]

/-- The table `ImageFilters` of play.cpp. -/
def ImageFilters : List NameFilter :=
  [FILTER ".cbr", FILTER ".cbz", FILTER ".zip", FILTER ".rar", FILTER ".jpg", FILTER ".png"]

/-! ## play.cpp: the plugin menu `cPlayMenu` -/

/-- A `cOsdItem` as the plugin menu creates it: its text (the argument of
`hk(tr(...))`, without hot key number and translation) and its state, `osUnknown`
when the constructor is given none. -/
structure cOsdItem where
  text : CStr
  state : eOSState
deriving DecidableEq, Repr

/-- The constructor `cPlayMenu::cPlayMenu`: the items it adds, in order. -/
def cPlayMenu : List cOsdItem :=
  [⟨cstr "Browse", eOSState.osUser1⟩,
   ⟨cstr "Play optical disc", eOSState.osUser2⟩,
   ⟨cstr "", eOSState.osUnknown⟩,
   ⟨cstr "", eOSState.osUnknown⟩,
   ⟨cstr "Play audio CD", eOSState.osUser5⟩,
   ⟨cstr "Play video DVD", eOSState.osUser6⟩,
   ⟨cstr "Browse audio", eOSState.osUser7⟩,
   ⟨cstr "Browse image", eOSState.osUser8⟩,
   ⟨cstr "Browse video", eOSState.osUser9⟩]

/-- What `cOsdMenu::ProcessKey(kOk)` of VDR returns for a menu whose current item
is the first with the given text: the state of that item. -/
def selectItem (items : List cOsdItem) (text : CStr) : eOSState :=
  match items.find? (fun i => i.text = text) with
  | some i => i.state
  | none => eOSState.osUnknown

/-- The statics `ShowBrowser`, `BrowserStartDir` and `BrowserFilters`. -/
structure Statics where
  ShowBrowser : Bool
  BrowserStartDir : Option CStr
  BrowserFilters : Option (List NameFilter)
deriving DecidableEq, Repr

/-- The function `cPlayMenu::ProcessKey(key)` from the point where
`cOsdMenu::ProcessKey(key)` has returned `state`: the statics afterwards, the
returned state and the argument of `PlayFile`, if it is called.
`ConfigBrowserRoot` is the external variable of that name. -/
def cPlayMenu_ProcessKey (ConfigBrowserRoot : CStr) (state : eOSState) (g : Statics) :
    Statics × eOSState × Option CStr :=
  match state with
  | eOSState.osUser1 => (⟨true, some ConfigBrowserRoot, none⟩, eOSState.osPlugin, none)
  | eOSState.osUser3 => (g, eOSState.osEnd, some (cstr "cdda://"))
  | eOSState.osUser4 => (g, eOSState.osEnd, some (cstr "dvdnav://"))
  | eOSState.osUser5 =>
    (⟨true, some ConfigBrowserRoot, some AudioFilters⟩, eOSState.osPlugin, none)
  | eOSState.osUser6 =>
    (⟨true, some ConfigBrowserRoot, some ImageFilters⟩, eOSState.osPlugin, none)
  | eOSState.osUser7 =>
    (⟨true, some ConfigBrowserRoot, some VideoFilters⟩, eOSState.osPlugin, none)
  | _ => (g, state, none)

/-- The function `cMyPlugin::MainMenuAction()`: the statics afterwards and the
browser it creates on the statics `b` of the directory stack, `none` when it
creates the plugin menu instead. -/
def MainMenuAction (w : World) (g : Statics) (b : Browser) : Statics × Option Browser :=
  if g.ShowBrowser then
    ({ g with BrowserStartDir := none }, some (cBrowser w b g.BrowserStartDir g.BrowserFilters))
  else
    (g, none)

/-! ## Concrete directories used to evaluate the code -/

/-- A round of the loop in which no allocation and no `fstat` fails. -/
def okStep (n : String) (t : DType) : ReadStep := ⟨⟨cstr n, t⟩, true, some 4096, true⟩

/-- A directory stream that opens, reports 4096 bytes and delivers `steps`. -/
def okDir (steps : List ReadStep) : DirStream := ⟨true, some 4096, true, steps, false⟩

/-- A `stat` that finds the two sub-directories of `/media/` and takes every
other path for something that is not a directory. -/
def mediaStat : Stat := fun p =>
  if p = cstr "/media/Movies" ∨ p = cstr "/media/Music" ∨ p = cstr "/media/."
      ∨ p = cstr "/media/.." then some true else some false

/-- The listing of `/media/`: two directories, files, a FIFO and a hidden file. -/
def mediaDir : DirStream :=
  okDir [okStep "." DType.DT_DIR, okStep ".." DType.DT_DIR, okStep "poster.jpg" DType.DT_REG,
    okStep "Music" DType.DT_DIR, okStep "movie.mkv" DType.DT_REG,
    okStep "Movies" DType.DT_UNKNOWN, okStep "pipe" DType.DT_FIFO,
    okStep ".hidden.mkv" DType.DT_REG, okStep "clip.MKV" DType.DT_LNK]

/-- A directory stream that opens and is sized, for which the allocation of the
name array fails. -/
def noMemDir : DirStream := ⟨true, some 4096, false, [], false⟩

/-- A build with `USE_AVFS` and hidden files off, on the filesystem of `mediaStat`
where every directory lists as `mediaDir`. -/
def mediaWorld : World := ⟨true, false, mediaStat, fun _ => mediaDir⟩

/-- The browser just opened with the root `/media` and the video filter. -/
def browserAtMedia : Browser :=
  cBrowser mediaWorld ⟨0, [], none, [], -1⟩ (some (cstr "/media")) (some VideoFilters)

/-- A `stat` that finds the sub-directory `/media/Movies` and takes every other
path for something that is not a directory. -/
def comicsStat : Stat := fun p => if p = cstr "/media/Movies" then some true else some false

/-- A listing with a directory, an archive file and an image. -/
def comicsDir : DirStream :=
  okDir [okStep "poster.jpg" DType.DT_REG, okStep "comics.cbz" DType.DT_REG,
    okStep "Movies" DType.DT_DIR]

/-- A build with `USE_AVFS` on the filesystem of `comicsStat`, where every
directory (the inside of an archive too) lists as `comicsDir`. -/
def comicsWorld : World := ⟨true, false, comicsStat, fun _ => comicsDir⟩

/-- The same filesystem in a build without `USE_AVFS`. -/
def comicsWorldNoAvfs : World := ⟨false, false, comicsStat, fun _ => comicsDir⟩

/-- The browser just opened with the root `/media/` and the image filter. -/
def browserAtComics : Browser :=
  cBrowser comicsWorld ⟨0, [], none, [], -1⟩ (some (cstr "/media/")) (some ImageFilters)

/-- A filesystem in which `/media/dvd/` is a DVD image: it holds the directories
`AUDIO_TS` and `VIDEO_TS`. -/
def dvdWorld : World :=
  ⟨false, false,
   fun p => if p = cstr "/media/dvd/AUDIO_TS" ∨ p = cstr "/media/dvd/VIDEO_TS" then some true
     else some false,
   fun _ => okDir [okStep "VIDEO_TS" DType.DT_DIR, okStep "AUDIO_TS" DType.DT_DIR]⟩

/-- The browser just opened with the root `/media/dvd/` and the video filter. -/
def browserAtDvd : Browser :=
  cBrowser dvdWorld ⟨0, [], none, [], -1⟩ (some (cstr "/media/dvd/")) (some VideoFilters)

/-- The filesystem of `mediaWorld`, except that `/media/Movies/` cannot be
opened (permission denied). -/
def lockedWorld : World :=
  ⟨true, false, mediaStat,
   fun p => if p = cstr "/media/Movies/" then ⟨false, none, true, [], false⟩ else mediaDir⟩

/-- The browser just opened in `lockedWorld` with the root `/media/` and the
video filter. -/
def browserAtLocked : Browser :=
  cBrowser lockedWorld ⟨0, [], none, [], -1⟩ (some (cstr "/media/")) (some VideoFilters)

/-- A filesystem in which no directory can be opened any more. -/
def goneWorld : World := ⟨true, false, mediaStat, fun _ => ⟨false, none, true, [], false⟩⟩

/-- A filesystem in which every directory is empty. -/
def emptyWorld : World := ⟨true, false, mediaStat, fun _ => okDir []⟩

/-- The browser just opened with the root `/media/` on an empty directory. -/
def browserAtEmpty : Browser :=
  cBrowser emptyWorld ⟨0, [], none, [], -1⟩ (some (cstr "/media/")) (some VideoFilters)

/-- A directory of 10 bytes (as `stat` reports it, at both calls) that holds the
regular file `a.mkv`, with an allocator whose `realloc(names, 0)` returns a
block. -/
def tinyDir : DirStream :=
  ⟨true, some 10, true, [⟨⟨cstr "a.mkv", DType.DT_REG⟩, true, some 10, true⟩], false⟩

/-- The directory of `tinyDir` with the allocator of glibc: `realloc(names, 0)`
frees the array and returns NULL, `errno` as it was. -/
def tinyGlibcDir : DirStream :=
  ⟨true, some 10, true, [⟨⟨cstr "a.mkv", DType.DT_REG⟩, true, some 10, false⟩], false⟩

/-- A filesystem in which every directory lists as `tinyGlibcDir`. -/
def tinyGlibcWorld : World := ⟨true, false, mediaStat, fun _ => tinyGlibcDir⟩

/-- A directory of 10 bytes that holds `a.mkv` and then the dangling symbolic
link `gone`, with the allocator of glibc. -/
def tinyDanglingDir : DirStream :=
  ⟨true, some 10, true,
   [⟨⟨cstr "a.mkv", DType.DT_REG⟩, true, some 10, false⟩,
    ⟨⟨cstr "gone", DType.DT_LNK⟩, true, some 10, false⟩], false⟩

/-- A `stat` that fails for `/media/gone` and finds a file everywhere else. -/
def danglingStat : Stat := fun p => if p = cstr "/media/gone" then none else some false

/-- The first capacity of the name array is at least 1: `fstat` reports 0 bytes
for the directory, for which the code takes 16 names, or at least 24 bytes
(`st_size / (3 * 8)` is 0 for 1 to 23 bytes). -/
def hasRoom (dir : DirStream) : Bool :=
  match dir.fstat with
  | some st_size => decide (st_size = 0 ∨ 24 ≤ st_size)
  | none => false

/-- The statics before the plugin menu is used. -/
def noBrowser : Statics := ⟨false, none, none⟩

/-! ## What the specification says, in its own words -/

/-- The name matches the table entry: the test of one round of the loop of
`FilterIsFile` and `IsArchive`. -/
def MatchesFilter (name : CStr) (f : NameFilter) : Prop :=
  f.Length ≤ name.length ∧ strcasecmp (name.drop (name.length - f.Length)) f.String = 0

instance (name : CStr) (f : NameFilter) : Decidable (MatchesFilter name f) := by
  unfold MatchesFilter; infer_instance

/-- The built-in suffix tables: video, audio, image, archive. -/
def builtinTables : List (List NameFilter) :=
  [VideoFilters, AudioFilters, ImageFilters, ArchiveFilters]

/-- In the table no entry is, without regard to case, the tail of another one,
and every entry has its own length as `Length`. -/
def TailFree (T : List NameFilter) : Prop :=
  ∀ f ∈ T, ∀ g ∈ T, f.Length = f.String.length
    ∧ (f.Length ≤ g.Length →
        (g.String.map tolower).drop (g.Length - f.Length) = f.String.map tolower → f = g)

instance (T : List NameFilter) : Decidable (TailFree T) := by
  unfold TailFree; infer_instance


/-- The path without one trailing separator. -/
def stripSlash (p : CStr) : CStr := if p.getLast? = some 47 then p.dropLast else p

/-- The text after the last byte `c` of `s`; all of `s` when it has no `c`. -/
def afterLast (c : Nat) : CStr → CStr
  | [] => []
  | a :: s => if c ∈ s then afterLast c s else if a = c then s else a :: s

/-- The trailing component of a path: the text after its last interior `/`,
without a trailing `/`. -/
def trailingComponent (p : CStr) : CStr := afterLast 47 (stripSlash p)

/-- The normalised prefix: the path, with the separator appended if absent. -/
def normalized (p : CStr) : CStr := if p.getLast? = some 47 then p else p ++ cstr "/"


/-- The last `f.Length` bytes of `name` exist and equal `f.String` when ASCII
letters are compared without case. -/
def EndsWithFilter (name : CStr) (f : NameFilter) : Prop :=
  f.Length ≤ name.length
    ∧ (name.drop (name.length - f.Length)).map tolower = f.String.map tolower

instance (name : CStr) (f : NameFilter) : Decidable (EndsWithFilter name f) := by
  unfold EndsWithFilter; infer_instance

/-- The name ends, without regard to case, with the suffix `suf`. -/
def EndsWithCI (name suf : CStr) : Prop :=
  suf.length ≤ name.length
    ∧ (name.drop (name.length - suf.length)).map tolower = suf.map tolower

instance (name suf : CStr) : Decidable (EndsWithCI name suf) := by
  unfold EndsWithCI; infer_instance

/-- The archive suffixes the specification lists. -/
def archiveSuffixes : List CStr :=
  [cstr ".cbz", cstr ".cbr", cstr ".zip", cstr ".rar", cstr ".tar", cstr ".tar.gz",
   cstr ".tgz"]

/-- The entry passes the hidden-file policy of the specification: a name that
begins with `.` only when hidden files are shown, and never `.` or `..`. -/
def PassesHiddenPolicy (showHidden : Bool) (n : CStr) : Prop :=
  (showHidden = true ∨ n.head? ≠ some 46) ∧ n ≠ [46] ∧ n ≠ [46, 46]

instance (showHidden : Bool) (n : CStr) : Decidable (PassesHiddenPolicy showHidden n) := by
  unfold PassesHiddenPolicy; infer_instance

/-- The entry is classified as a directory: the filesystem reports a directory, or
it reports a symbolic link or no type and `stat` of the joined path reports a
directory. -/
def ClassifiedDirectory (stat : Stat) (name : CStr) (e : dirent) : Prop :=
  e.d_type = DType.DT_DIR
    ∨ ((e.d_type = DType.DT_LNK ∨ e.d_type = DType.DT_UNKNOWN)
      ∧ stat (name ++ e.d_name) = some true)

instance (stat : Stat) (name : CStr) (e : dirent) :
    Decidable (ClassifiedDirectory stat name e) := by
  unfold ClassifiedDirectory; infer_instance

/-- The entry is classified as a file: the filesystem reports a regular file, or
it reports a symbolic link or no type and `stat` of the joined path reports
something that is not a directory. -/
def ClassifiedFile (stat : Stat) (name : CStr) (e : dirent) : Prop :=
  e.d_type = DType.DT_REG
    ∨ ((e.d_type = DType.DT_LNK ∨ e.d_type = DType.DT_UNKNOWN)
      ∧ stat (name ++ e.d_name) = some false)

instance (stat : Stat) (name : CStr) (e : dirent) :
    Decidable (ClassifiedFile stat name e) := by
  unfold ClassifiedFile; infer_instance

/-- The entry is not a directory, whatever type the filesystem reports for it:
the reported type is not a directory and `stat` of the joined path reports
something that is not a directory. -/
def NotDirectory (stat : Stat) (name : CStr) (e : dirent) : Prop :=
  e.d_type ≠ DType.DT_DIR ∧ stat (name ++ e.d_name) = some false

instance (stat : Stat) (name : CStr) (e : dirent) :
    Decidable (NotDirectory stat name e) := by
  unfold NotDirectory; infer_instance

/-- The loop of `ScanDirectory` accepts the entry: its filter does not answer 0. -/
def accepted (showHidden : Bool) (stat : Stat) (name : CStr) (flag_dir : Int)
    (filter : Option (List NameFilter)) (e : dirent) : Bool :=
  decide ((entryFilter showHidden stat name flag_dir filter e 0).1 ≠ 0)

/-- The names of the entries of the listing that the loop accepts, in the order
of the listing. -/
def acceptedNames (showHidden : Bool) (stat : Stat) (name : CStr) (flag_dir : Int)
    (filter : Option (List NameFilter)) (dir : DirStream) : List CStr :=
  ((dir.steps.map (fun r => r.entry)).filter
    (accepted showHidden stat name flag_dir filter)).map (fun e => e.d_name)

/-- The byte-wise order of `q_cmp`: `a` does not come after `b`. -/
def StrLe (a b : CStr) : Prop := q_cmp a b ≤ 0

instance : DecidableRel StrLe := fun a b => by
  unfold StrLe; infer_instance

/-! ## Lemmas on strings and the suffix test -/

theorem tolower_eq_zero_iff (b : Nat) : tolower b = 0 ↔ b = 0 := by
  unfold tolower
  split <;> omega

theorem strcasecmp_eq_zero_iff (a b : CStr) (ha : NoNul a) (hb : NoNul b) :
    strcasecmp a b = 0 ↔ a.map tolower = b.map tolower := by
  induction a generalizing b with
  | nil =>
    cases b with
    | nil => simp [strcasecmp]
    | cons y ys =>
      have hy : y ≠ 0 := hb y (List.mem_cons_self y ys)
      have : tolower y ≠ 0 := fun h => hy ((tolower_eq_zero_iff y).1 h)
      simp [strcasecmp]
      omega
  | cons x xs ih =>
    cases b with
    | nil =>
      have hx : x ≠ 0 := ha x (List.mem_cons_self x xs)
      have : tolower x ≠ 0 := fun h => hx ((tolower_eq_zero_iff x).1 h)
      simp [strcasecmp]
      omega
    | cons y ys =>
      have ha2 : NoNul xs := fun c hc => ha c (List.mem_cons_of_mem x hc)
      have hb2 : NoNul ys := fun c hc => hb c (List.mem_cons_of_mem y hc)
      by_cases h : tolower x = tolower y
      · simp [strcasecmp, h, ih ys ha2 hb2]
      · simp [strcasecmp, h]
        omega

theorem strcasecmp_eq_zero_iff_of_length (a b : CStr) (hl : a.length = b.length) :
    strcasecmp a b = 0 ↔ a.map tolower = b.map tolower := by
  induction a generalizing b with
  | nil =>
    cases b with
    | nil => simp [strcasecmp]
    | cons y ys => simp at hl
  | cons x xs ih =>
    cases b with
    | nil => simp at hl
    | cons y ys =>
      have hl2 : xs.length = ys.length := by simpa using hl
      by_cases h : tolower x = tolower y
      · simp [strcasecmp, h, ih ys hl2]
      · simp [strcasecmp, h]
        omega

theorem suffixLoop_iff (name : CStr) (tbl : List NameFilter) :
    suffixLoop name tbl = true ↔
      ∃ f ∈ tbl, f.Length ≤ name.length
        ∧ strcasecmp (name.drop (name.length - f.Length)) f.String = 0 := by
  induction tbl with
  | nil => simp [suffixLoop]
  | cons f rest ih =>
    by_cases h : f.Length ≤ name.length
        ∧ strcasecmp (name.drop (name.length - f.Length)) f.String = 0
    · simp only [suffixLoop, if_pos h, true_iff]
      exact ⟨f, List.mem_cons_self f rest, h⟩
    · simp only [suffixLoop, if_neg h, ih]
      constructor
      · rintro ⟨g, hg, hg2⟩
        exact ⟨g, List.mem_cons_of_mem f hg, hg2⟩
      · rintro ⟨g, hg, hg2⟩
        rcases List.mem_cons.1 hg with rfl | hg3
        · exact absurd hg2 h
        · exact ⟨g, hg3, hg2⟩

theorem noNul_drop (s : CStr) (k : Nat) (h : NoNul s) : NoNul (s.drop k) :=
  fun b hb => h b (List.mem_of_mem_drop hb)

/-! ## Lemmas on the filters and the loop of `ScanDirectory` -/

theorem IsDirectory_fst (stat : Stat) (f : CStr) (errno : Nat) :
    (IsDirectory stat f errno).1 = (IsDirectory stat f 0).1 := by
  unfold IsDirectory
  cases stat f <;> rfl

theorem IsDirectory_snd (stat : Stat) (f : CStr) (errno : Nat) :
    (IsDirectory stat f errno).2 = 0 ↔ errno = 0 ∧ (IsDirectory stat f 0).2 = 0 := by
  unfold IsDirectory
  cases stat f <;> simp [ENOENT]

theorem FilterIsDirectory_fst (showHidden : Bool) (stat : Stat) (name : CStr)
    (e : dirent) (errno : Nat) :
    (FilterIsDirectory showHidden stat name e errno).1
      = (FilterIsDirectory showHidden stat name e 0).1 := by
  unfold FilterIsDirectory
  dsimp only
  split_ifs
  · rfl
  · rfl
  · rfl
  · exact IsDirectory_fst _ _ _
  · rfl
  · exact IsDirectory_fst _ _ _

theorem FilterIsDirectory_snd (showHidden : Bool) (stat : Stat) (name : CStr)
    (e : dirent) (errno : Nat) :
    (FilterIsDirectory showHidden stat name e errno).2 = 0
      ↔ errno = 0 ∧ (FilterIsDirectory showHidden stat name e 0).2 = 0 := by
  unfold FilterIsDirectory
  dsimp only
  split_ifs
  · simp
  · simp
  · simp
  · exact IsDirectory_snd _ _ _
  · simp
  · exact IsDirectory_snd _ _ _

theorem FilterIsFile_fst (showHidden : Bool) (stat : Stat) (name : CStr)
    (filter : Option (List NameFilter)) (e : dirent) (errno : Nat) :
    (FilterIsFile showHidden stat name filter e errno).1
      = (FilterIsFile showHidden stat name filter e 0).1 := by
  unfold FilterIsFile
  dsimp only
  rw [IsDirectory_fst stat (name ++ e.d_name) errno]
  split_ifs <;> rfl

theorem FilterIsFile_snd (showHidden : Bool) (stat : Stat) (name : CStr)
    (filter : Option (List NameFilter)) (e : dirent) (errno : Nat) :
    (FilterIsFile showHidden stat name filter e errno).2 = 0
      ↔ errno = 0 ∧ (FilterIsFile showHidden stat name filter e 0).2 = 0 := by
  unfold FilterIsFile
  dsimp only
  have h := IsDirectory_snd stat (name ++ e.d_name) errno
  split_ifs <;> first | exact h | simp

theorem entryFilter_fst (showHidden : Bool) (stat : Stat) (name : CStr) (flag_dir : Int)
    (filter : Option (List NameFilter)) (e : dirent) (errno : Nat) :
    (entryFilter showHidden stat name flag_dir filter e errno).1
      = (entryFilter showHidden stat name flag_dir filter e 0).1 := by
  unfold entryFilter
  split_ifs
  · exact FilterIsDirectory_fst _ _ _ _ _
  · exact FilterIsFile_fst _ _ _ _ _ _

theorem entryFilter_snd (showHidden : Bool) (stat : Stat) (name : CStr) (flag_dir : Int)
    (filter : Option (List NameFilter)) (e : dirent) (errno : Nat) :
    (entryFilter showHidden stat name flag_dir filter e errno).2 = 0
      ↔ errno = 0 ∧ (entryFilter showHidden stat name flag_dir filter e 0).2 = 0 := by
  unfold entryFilter
  split_ifs
  · exact FilterIsDirectory_snd _ _ _ _ _
  · exact FilterIsFile_snd _ _ _ _ _ _

/-- A round that ends with `errno` clear and the array in place did not break,
began so, saw no failing `stat`, and appended the name exactly when the filter
accepted. -/
theorem scanStep_ok (showHidden : Bool) (stat : Stat) (name : CStr) (flag_dir : Int)
    (filter : Option (List NameFilter)) (st : ScanState) (r : ReadStep)
    (h : (scanStep showHidden stat name flag_dir filter st r).1.errno = 0)
    (hfr : (scanStep showHidden stat name flag_dir filter st r).1.freed = false) :
    (scanStep showHidden stat name flag_dir filter st r).2 = true
      ∧ st.errno = 0
      ∧ st.freed = false
      ∧ (entryFilter showHidden stat name flag_dir filter r.entry 0).2 = 0
      ∧ (scanStep showHidden stat name flag_dir filter st r).1.names
          = st.names ++ (if accepted showHidden stat name flag_dir filter r.entry
              then [r.entry.d_name] else [])
      ∧ (scanStep showHidden stat name flag_dir filter st r).1.n
          = st.n + (if accepted showHidden stat name flag_dir filter r.entry then 1 else 0) := by
  have hfst := entryFilter_fst showHidden stat name flag_dir filter r.entry st.errno
  have hsnd := entryFilter_snd showHidden stat name flag_dir filter r.entry st.errno
  unfold scanStep at h hfr ⊢
  unfold accepted
  simp only [] at h hfr ⊢
  rw [hfst] at h hfr ⊢
  by_cases h0 : (entryFilter showHidden stat name flag_dir filter r.entry 0).1 = 0
  · simp only [h0, if_true] at h hfr ⊢
    have := hsnd.1 h
    simp [this.1, this.2, hfr]
  · simp only [h0, if_false] at h hfr ⊢
    by_cases hm : r.mallocOk = false
    · simp [hm, ENOMEM] at h
    · simp only [hm, if_false] at h hfr ⊢
      by_cases hfull : st.n + 1 ≥ st.arraysz
      · simp only [hfull, if_true] at h hfr ⊢
        cases hf : r.fstat with
        | none => simp [hf, ENOENT] at h
        | some sz =>
          simp only [hf] at h hfr ⊢
          by_cases hr : r.reallocOk = false
          · simp only [hr, if_true] at h hfr
            by_cases hz : (if sz / (3 * 4) > st.arraysz then sz / (3 * 4)
                else st.arraysz * 2) = 0
            · rw [if_pos hz] at hfr
              simp at hfr
            · rw [if_neg hz] at h
              simp [ENOMEM] at h
          · simp only [hr, if_false] at h hfr ⊢
            have := hsnd.1 h
            simp at hfr
            simp [this.1, this.2, h0, hfr]
      · simp only [hfull, if_false] at h hfr ⊢
        have := hsnd.1 h
        simp at hfr
        simp [this.1, this.2, h0, hfr]

/-- A round that ends with `errno` clear began so and saw no failing `stat`, and
a name that is in the array after it was there before or is the name of the
entry of this round, which the filter accepted. -/
theorem scanStep_names (showHidden : Bool) (stat : Stat) (name : CStr) (flag_dir : Int)
    (filter : Option (List NameFilter)) (st : ScanState) (r : ReadStep)
    (h : (scanStep showHidden stat name flag_dir filter st r).1.errno = 0) :
    st.errno = 0
      ∧ (entryFilter showHidden stat name flag_dir filter r.entry 0).2 = 0
      ∧ ∀ x ∈ (scanStep showHidden stat name flag_dir filter st r).1.names,
          x ∈ st.names
            ∨ ((entryFilter showHidden stat name flag_dir filter r.entry 0).1 ≠ 0
                ∧ r.entry.d_name = x) := by
  have hfst := entryFilter_fst showHidden stat name flag_dir filter r.entry st.errno
  have hsnd := entryFilter_snd showHidden stat name flag_dir filter r.entry st.errno
  unfold scanStep at h ⊢
  simp only [] at h ⊢
  rw [hfst] at h ⊢
  by_cases h0 : (entryFilter showHidden stat name flag_dir filter r.entry 0).1 = 0
  · simp only [h0, if_true] at h ⊢
    have := hsnd.1 h
    exact ⟨this.1, this.2, fun x hx => Or.inl hx⟩
  · simp only [h0, if_false] at h ⊢
    by_cases hm : r.mallocOk = false
    · simp [hm, ENOMEM] at h
    · simp only [hm, if_false] at h ⊢
      by_cases hfull : st.n + 1 ≥ st.arraysz
      · simp only [hfull, if_true] at h ⊢
        cases hf : r.fstat with
        | none => simp [hf, ENOENT] at h
        | some sz =>
          simp only [hf] at h ⊢
          by_cases hr : r.reallocOk = false
          · simp only [hr, if_true] at h ⊢
            by_cases hz : (if sz / (3 * 4) > st.arraysz then sz / (3 * 4)
                else st.arraysz * 2) = 0
            · rw [if_pos hz] at h ⊢
              have := hsnd.1 h
              exact ⟨this.1, this.2, fun x hx => Or.inl hx⟩
            · rw [if_neg hz] at h
              simp [ENOMEM] at h
          · simp only [hr, if_false] at h ⊢
            have := hsnd.1 h
            refine ⟨this.1, this.2, fun x hx => ?_⟩
            rcases List.mem_append.1 hx with hx1 | hx1
            · exact Or.inl hx1
            · exact Or.inr ⟨h0, (List.mem_singleton.1 hx1).symm⟩
      · simp only [hfull, if_false] at h ⊢
        have := hsnd.1 h
        refine ⟨this.1, this.2, fun x hx => ?_⟩
        rcases List.mem_append.1 hx with hx1 | hx1
        · exact Or.inl hx1
        · exact Or.inr ⟨h0, (List.mem_singleton.1 hx1).symm⟩

/-- While the capacity is at least 1 no round asks `realloc` for 0 bytes: the
capacity stays at least 1 and the array in place. -/
theorem scanStep_room (showHidden : Bool) (stat : Stat) (name : CStr) (flag_dir : Int)
    (filter : Option (List NameFilter)) (st : ScanState) (r : ReadStep)
    (h1 : 1 ≤ st.arraysz) (h2 : st.freed = false) :
    1 ≤ (scanStep showHidden stat name flag_dir filter st r).1.arraysz
      ∧ (scanStep showHidden stat name flag_dir filter st r).1.freed = false := by
  unfold scanStep
  dsimp only
  have hpos : ∀ sz : Nat, 1 ≤ (if sz / (3 * 4) > st.arraysz then sz / (3 * 4)
      else st.arraysz * 2) := by
    intro sz
    by_cases hc : sz / (3 * 4) > st.arraysz
    · rw [if_pos hc]
      omega
    · rw [if_neg hc]
      omega
  by_cases c1 : (entryFilter showHidden stat name flag_dir filter r.entry st.errno).1 = 0
  · rw [if_pos c1]
    exact ⟨h1, h2⟩
  · rw [if_neg c1]
    by_cases c2 : r.mallocOk = false
    · rw [if_pos c2]
      exact ⟨h1, h2⟩
    · rw [if_neg c2]
      by_cases c3 : st.n + 1 ≥ st.arraysz
      · rw [if_pos c3]
        cases hf : r.fstat with
        | none => exact ⟨h1, h2⟩
        | some sz =>
          dsimp only
          have hp := hpos sz
          by_cases hr : r.reallocOk = false
          · rw [if_pos hr, if_neg (by omega)]
            exact ⟨hp, h2⟩
          · rw [if_neg hr]
            exact ⟨hp, h2⟩
      · rw [if_neg c3]
        exact ⟨h1, h2⟩

theorem scanLoop_room (showHidden : Bool) (stat : Stat) (name : CStr) (flag_dir : Int)
    (filter : Option (List NameFilter)) (readErr : Bool) (steps : List ReadStep) :
    ∀ st : ScanState, 1 ≤ st.arraysz → st.freed = false →
    (scanLoop showHidden stat name flag_dir filter readErr st steps).freed = false := by
  induction steps with
  | nil =>
    intro st _ h2
    cases readErr <;> simpa [scanLoop] using h2
  | cons r rest ih =>
    intro st h1 h2
    obtain ⟨k1, k2⟩ := scanStep_room showHidden stat name flag_dir filter st r h1 h2
    simp only [scanLoop]
    split_ifs
    · exact ih _ k1 k2
    · exact k2

/-- A loop that ends with `errno` clear and the array in place ran over the whole
listing without an enumeration error or a failing `stat`, and collected the
accepted names in order. -/
theorem scanLoop_ok (showHidden : Bool) (stat : Stat) (name : CStr) (flag_dir : Int)
    (filter : Option (List NameFilter)) (readErr : Bool) (steps : List ReadStep) :
    ∀ st : ScanState,
    (scanLoop showHidden stat name flag_dir filter readErr st steps).errno = 0 →
    (scanLoop showHidden stat name flag_dir filter readErr st steps).freed = false →
    readErr = false ∧ st.errno = 0
      ∧ (∀ r ∈ steps, (entryFilter showHidden stat name flag_dir filter r.entry 0).2 = 0)
      ∧ (scanLoop showHidden stat name flag_dir filter readErr st steps).names
          = st.names ++ ((steps.map (fun r => r.entry)).filter
              (accepted showHidden stat name flag_dir filter)).map (fun e => e.d_name)
      ∧ (scanLoop showHidden stat name flag_dir filter readErr st steps).n
          = st.n + ((steps.map (fun r => r.entry)).filter
              (accepted showHidden stat name flag_dir filter)).length
      ∧ st.freed = false := by
  induction steps with
  | nil =>
    intro st h hfr
    cases readErr
    · simp only [scanLoop, Bool.false_eq_true, if_false] at h hfr
      simp [scanLoop, h, hfr]
    · simp [scanLoop, ENOENT] at h
  | cons r rest ih =>
    intro st h hfr
    have hs : (scanStep showHidden stat name flag_dir filter st r).2 = true := by
      by_contra hc
      simp only [scanLoop, Bool.not_eq_true] at h hfr hc
      rw [hc] at h hfr
      simp only [Bool.false_eq_true, if_false] at h hfr
      have := (scanStep_ok showHidden stat name flag_dir filter st r h hfr).1
      rw [hc] at this
      exact Bool.false_ne_true this
    simp only [scanLoop, hs, if_true] at h hfr ⊢
    obtain ⟨h1, h2, h3, h4, h5, h6⟩ := ih _ h hfr
    obtain ⟨_, k2, k6, k3, k4, k5⟩ :=
      scanStep_ok showHidden stat name flag_dir filter st r h2 h6
    refine ⟨h1, k2, ?_, ?_, ?_, k6⟩
    · intro q hq
      rcases List.mem_cons.1 hq with rfl | hq2
      · exact k3
      · exact h3 q hq2
    · rw [h4, k4]
      cases hacc : accepted showHidden stat name flag_dir filter r.entry <;>
        simp [List.filter_cons, hacc]
    · rw [h5, k5]
      cases hacc : accepted showHidden stat name flag_dir filter r.entry <;>
        simp [List.filter_cons, hacc]
      omega

/-- After a loop that ends with `errno` clear, every name in the array is the
name of an entry of the listing that the filter accepted and whose `stat`, if
one was needed, did not fail. -/
theorem scanLoop_names (showHidden : Bool) (stat : Stat) (name : CStr) (flag_dir : Int)
    (filter : Option (List NameFilter)) (readErr : Bool) (steps : List ReadStep) :
    ∀ st : ScanState,
    (scanLoop showHidden stat name flag_dir filter readErr st steps).errno = 0 →
    st.errno = 0
      ∧ ∀ x ∈ (scanLoop showHidden stat name flag_dir filter readErr st steps).names,
          x ∈ st.names
            ∨ ∃ r ∈ steps, (entryFilter showHidden stat name flag_dir filter r.entry 0).1 ≠ 0
                ∧ (entryFilter showHidden stat name flag_dir filter r.entry 0).2 = 0
                ∧ r.entry.d_name = x := by
  induction steps with
  | nil =>
    intro st h
    cases readErr
    · simp only [scanLoop, Bool.false_eq_true, if_false] at h ⊢
      exact ⟨h, fun x hx => Or.inl hx⟩
    · simp [scanLoop, ENOENT] at h
  | cons r rest ih =>
    intro st h
    simp only [scanLoop] at h ⊢
    by_cases hs : (scanStep showHidden stat name flag_dir filter st r).2 = true
    · rw [if_pos hs] at h ⊢
      obtain ⟨h1, h2⟩ := ih _ h
      obtain ⟨k1, k2, k3⟩ := scanStep_names showHidden stat name flag_dir filter st r h1
      refine ⟨k1, fun x hx => ?_⟩
      rcases h2 x hx with hx1 | ⟨q, hq, hq1, hq2, hq3⟩
      · rcases k3 x hx1 with hx2 | ⟨hx2, hx3⟩
        · exact Or.inl hx2
        · exact Or.inr ⟨r, List.mem_cons_self _ _, hx2, k2, hx3⟩
      · exact Or.inr ⟨q, List.mem_cons_of_mem _ hq, hq1, hq2, hq3⟩
    · rw [if_neg hs] at h ⊢
      obtain ⟨k1, k2, k3⟩ := scanStep_names showHidden stat name flag_dir filter st r h
      refine ⟨k1, fun x hx => ?_⟩
      rcases k3 x hx with hx2 | ⟨hx2, hx3⟩
      · exact Or.inl hx2
      · exact Or.inr ⟨r, List.mem_cons_self _ _, hx2, k2, hx3⟩

/-- The state of `ScanDirectory` when its loop is left. -/
theorem ScanDirectory_cases (showHidden : Bool) (stat : Stat) (dir : DirStream)
    (name : CStr) (flag_dir : Int) (filter : Option (List NameFilter)) :
    ScanDirectory showHidden stat dir name flag_dir filter = ⟨-1, NameList.untouched⟩
      ∨ ScanDirectory showHidden stat dir name flag_dir filter = ⟨-1, NameList.null⟩
      ∨ (∃ st0 : ScanState, st0.n = 0 ∧ st0.names = [] ∧ st0.errno = 0
          ∧ (scanLoop showHidden stat name flag_dir filter dir.readErr st0 dir.steps).errno = 0
          ∧ (scanLoop showHidden stat name flag_dir filter dir.readErr st0 dir.steps).freed = true
          ∧ ScanDirectory showHidden stat dir name flag_dir filter
            = ⟨((scanLoop showHidden stat name flag_dir filter dir.readErr st0 dir.steps).n : Int),
               NameList.freed⟩)
      ∨ ∃ st0 : ScanState, st0.n = 0 ∧ st0.names = [] ∧ st0.errno = 0
          ∧ (scanLoop showHidden stat name flag_dir filter dir.readErr st0 dir.steps).errno = 0
          ∧ (scanLoop showHidden stat name flag_dir filter dir.readErr st0 dir.steps).freed = false
          ∧ ScanDirectory showHidden stat dir name flag_dir filter
            = ⟨((scanLoop showHidden stat name flag_dir filter dir.readErr st0 dir.steps).n : Int),
               NameList.names (qsort
                ((scanLoop showHidden stat name flag_dir filter dir.readErr st0 dir.steps).names.take
                  (scanLoop showHidden stat name flag_dir filter dir.readErr st0 dir.steps).n))⟩ := by
  unfold ScanDirectory
  by_cases ho : dir.opens = false
  · rw [if_pos ho]
    exact Or.inl rfl
  · rw [if_neg ho]
    cases hf : dir.fstat with
    | none => exact Or.inl rfl
    | some sz =>
      dsimp only
      by_cases hm : dir.mallocOk = false
      · rw [if_pos hm]
        exact Or.inl rfl
      · rw [if_neg hm]
        by_cases he : (scanLoop showHidden stat name flag_dir filter dir.readErr
            ⟨0, [], if sz ≠ 0 then sz / (3 * 8) else 16, 0, false⟩ dir.steps).errno = 0
        · rw [if_neg (not_not.2 he)]
          by_cases hfr : (scanLoop showHidden stat name flag_dir filter dir.readErr
              ⟨0, [], if sz ≠ 0 then sz / (3 * 8) else 16, 0, false⟩ dir.steps).freed = true
          · exact Or.inr (Or.inr (Or.inl
              ⟨⟨0, [], if sz ≠ 0 then sz / (3 * 8) else 16, 0, false⟩, rfl, rfl, rfl, he, hfr,
                if_pos hfr⟩))
          · exact Or.inr (Or.inr (Or.inr
              ⟨⟨0, [], if sz ≠ 0 then sz / (3 * 8) else 16, 0, false⟩, rfl, rfl, rfl, he,
                Bool.eq_false_iff.2 hfr, if_neg hfr⟩))
        · exact Or.inr (Or.inl (if_pos he))

/-- A scan that does not return a negative value and hands back its array ran its
loop to the end of the listing without any failure, and hands back the sorted
accepted names. -/
theorem ScanDirectory_ok (showHidden : Bool) (stat : Stat) (dir : DirStream) (name : CStr)
    (flag_dir : Int) (filter : Option (List NameFilter))
    (h : 0 ≤ (ScanDirectory showHidden stat dir name flag_dir filter).ret)
    (hfr : (ScanDirectory showHidden stat dir name flag_dir filter).namelist ≠ NameList.freed) :
    ScanDirectory showHidden stat dir name flag_dir filter
        = ⟨((acceptedNames showHidden stat name flag_dir filter dir).length : Int),
           NameList.names (qsort (acceptedNames showHidden stat name flag_dir filter dir))⟩
      ∧ dir.readErr = false
      ∧ ∀ r ∈ dir.steps,
          (entryFilter showHidden stat name flag_dir filter r.entry 0).2 = 0 := by
  rcases ScanDirectory_cases showHidden stat dir name flag_dir filter with
    hc | hc | ⟨st0, _, _, _, _, _, hc⟩ | ⟨st0, hn, hnames, _, he, hf, hc⟩
  · rw [hc] at h
    simp at h
  · rw [hc] at h
    simp at h
  · rw [hc] at hfr
    exact absurd rfl hfr
  · obtain ⟨h1, _, h3, h4, h5, _⟩ :=
      scanLoop_ok showHidden stat name flag_dir filter dir.readErr dir.steps st0 he hf
    refine ⟨?_, h1, h3⟩
    rw [hc, h4, h5, hn, hnames]
    simp only [acceptedNames, List.nil_append, Nat.zero_add, List.length_map]
    rw [List.take_of_length_le (by simp)]

/-- A scan of a directory with room for a name at the start never hands back a
freed array. -/
theorem ScanDirectory_not_freed (showHidden : Bool) (stat : Stat) (dir : DirStream)
    (name : CStr) (flag_dir : Int) (filter : Option (List NameFilter))
    (hroom : hasRoom dir = true) :
    (ScanDirectory showHidden stat dir name flag_dir filter).namelist ≠ NameList.freed := by
  unfold hasRoom at hroom
  unfold ScanDirectory
  by_cases ho : dir.opens = false
  · rw [if_pos ho]
    simp
  · rw [if_neg ho]
    cases hf : dir.fstat with
    | none => simp
    | some sz =>
      rw [hf] at hroom
      have hsz : sz = 0 ∨ 24 ≤ sz := by simpa using hroom
      dsimp only
      by_cases hm : dir.mallocOk = false
      · rw [if_pos hm]
        simp
      · rw [if_neg hm]
        have hfree := scanLoop_room showHidden stat name flag_dir filter dir.readErr dir.steps
          ⟨0, [], if sz ≠ 0 then sz / (3 * 8) else 16, 0, false⟩
          (by
            show 1 ≤ (if sz ≠ 0 then sz / (3 * 8) else 16)
            by_cases hz : sz ≠ 0
            · rw [if_pos hz]
              omega
            · rw [if_neg hz]
              omega) rfl
        split_ifs <;> simp_all

/-- A scan that returns a negative value hands back no names. -/
theorem ScanDirectory_failed (showHidden : Bool) (stat : Stat) (dir : DirStream)
    (name : CStr) (flag_dir : Int) (filter : Option (List NameFilter))
    (h : (ScanDirectory showHidden stat dir name flag_dir filter).ret < 0) :
    (ScanDirectory showHidden stat dir name flag_dir filter).namelist.toList = [] := by
  rcases ScanDirectory_cases showHidden stat dir name flag_dir filter with
    hc | hc | ⟨st0, _, _, _, _, _, hc⟩ | ⟨st0, _, _, _, _, _, hc⟩
  · rw [hc]
    rfl
  · rw [hc]
    rfl
  · rw [hc]
    rfl
  · rw [hc] at h
    simp only at h
    omega

/-- The names a scan hands back are names of entries of the listing that the
filter accepted and whose `stat`, if one was needed, did not fail, and there are
names only after a scan that did not fail. -/
theorem mem_ScanDirectory_toList (showHidden : Bool) (stat : Stat) (dir : DirStream)
    (name : CStr) (flag_dir : Int) (filter : Option (List NameFilter)) (x : CStr)
    (hx : x ∈ (ScanDirectory showHidden stat dir name flag_dir filter).namelist.toList) :
    0 ≤ (ScanDirectory showHidden stat dir name flag_dir filter).ret
      ∧ ∃ r ∈ dir.steps, (entryFilter showHidden stat name flag_dir filter r.entry 0).1 ≠ 0
          ∧ (entryFilter showHidden stat name flag_dir filter r.entry 0).2 = 0
          ∧ r.entry.d_name = x := by
  rcases ScanDirectory_cases showHidden stat dir name flag_dir filter with
    hc | hc | ⟨st0, _, _, _, _, _, hc⟩ | ⟨st0, hn, hnames, _, he, hf, hc⟩
  · rw [hc] at hx
    simp [NameList.toList] at hx
  · rw [hc] at hx
    simp [NameList.toList] at hx
  · rw [hc] at hx
    simp [NameList.toList] at hx
  · rw [hc] at hx ⊢
    refine ⟨Int.natCast_nonneg _, ?_⟩
    have hx1 : x ∈ (scanLoop showHidden stat name flag_dir filter dir.readErr st0
        dir.steps).names := by
      have hx2 : x ∈ qsort ((scanLoop showHidden stat name flag_dir filter dir.readErr st0
          dir.steps).names.take (scanLoop showHidden stat name flag_dir filter dir.readErr st0
          dir.steps).n) := hx
      unfold qsort at hx2
      exact List.mem_of_mem_take ((List.perm_insertionSort _ _).mem_iff.1 hx2)
    rcases (scanLoop_names showHidden stat name flag_dir filter dir.readErr dir.steps st0
      he).2 x hx1 with hx3 | hx3
    · rw [hnames] at hx3
      cases hx3
    · exact hx3

/-- A name a scan hands back is one of the accepted names of the listing. -/
theorem mem_acceptedNames_of_mem_toList (showHidden : Bool) (stat : Stat) (dir : DirStream)
    (name : CStr) (flag_dir : Int) (filter : Option (List NameFilter)) (x : CStr)
    (hx : x ∈ (ScanDirectory showHidden stat dir name flag_dir filter).namelist.toList) :
    x ∈ acceptedNames showHidden stat name flag_dir filter dir := by
  obtain ⟨_, r, hr, h1, _, h3⟩ :=
    mem_ScanDirectory_toList showHidden stat dir name flag_dir filter x hx
  unfold acceptedNames
  refine List.mem_map.2 ⟨r.entry, List.mem_filter.2 ⟨List.mem_map.2 ⟨r, hr, rfl⟩, ?_⟩, h3⟩
  unfold accepted
  exact decide_eq_true h1

theorem hidden_iff (showHidden : Bool) (n : CStr) :
    (n.length ≠ 0 ∧ n[0]? = some 46 ∧ showHidden = false)
      ↔ ¬ (showHidden = true ∨ n.head? ≠ some 46) := by
  cases n with
  | nil => simp
  | cons a t => cases showHidden <;> simp

/-- What `FilterIsFile` accepts: a name that is not hidden, that passes the suffix
test when there is a table, and an entry classified as a file. -/
theorem FilterIsFile_accepts_iff (showHidden : Bool) (stat : Stat) (name : CStr)
    (filter : Option (List NameFilter)) (e : dirent) :
    (FilterIsFile showHidden stat name filter e 0).1 ≠ 0 ↔
      (showHidden = true ∨ e.d_name.head? ≠ some 46)
        ∧ (∀ tbl, filter = some tbl → suffixLoop e.d_name tbl = true)
        ∧ ClassifiedFile stat name e := by
  unfold FilterIsFile
  dsimp only
  by_cases hc : e.d_name.length ≠ 0 ∧ e.d_name[0]? = some 46 ∧ showHidden = false
  swap
  · have hh : showHidden = true ∨ e.d_name.head? ≠ some 46 :=
      not_not.1 (fun k => hc ((hidden_iff showHidden e.d_name).2 k))
    rw [if_neg hc]
    cases filter with
    | none =>
      unfold ClassifiedFile IsDirectory
      cases hs : stat (name ++ e.d_name) with
      | none => cases e.d_type <;> simp [hh]
      | some d => cases d <;> cases e.d_type <;> simp [hh]
    | some tbl =>
      unfold ClassifiedFile IsDirectory
      cases hl : suffixLoop e.d_name tbl
      · simp [hl]
      · cases hs : stat (name ++ e.d_name) with
        | none => cases e.d_type <;> simp [hh, hl, hs]
        | some d => cases d <;> cases e.d_type <;> simp [hh, hl, hs]
  · have hh := (hidden_iff showHidden e.d_name).1 hc
    rw [if_pos hc]
    simp [hh]

/-- What `FilterIsDirectory` accepts: a name that is not hidden and neither `.`
nor `..`, and, when no `stat` failed, an entry classified as a directory. -/
theorem FilterIsDirectory_accepts (showHidden : Bool) (stat : Stat) (name : CStr)
    (e : dirent) (h : (FilterIsDirectory showHidden stat name e 0).1 ≠ 0) :
    (showHidden = true ∨ e.d_name.head? ≠ some 46) ∧ e.d_name ≠ [46] ∧ e.d_name ≠ [46, 46]
      ∧ ((FilterIsDirectory showHidden stat name e 0).2 = 0 →
          ClassifiedDirectory stat name e) := by
  unfold FilterIsDirectory at h ⊢
  dsimp only at h ⊢
  by_cases hc : e.d_name.length ≠ 0 ∧ e.d_name[0]? = some 46 ∧ showHidden = false
  swap
  · have hh : showHidden = true ∨ e.d_name.head? ≠ some 46 :=
      not_not.1 (fun k => hc ((hidden_iff showHidden e.d_name).2 k))
    rw [if_neg hc] at h ⊢
    by_cases hd : e.d_name.length ≠ 0 ∧ e.d_name[0]? = some 46
      ∧ (e.d_name.length = 1 ∨ (e.d_name.length = 2 ∧ e.d_name[1]? = some 46))
    · rw [if_pos hd] at h
      exact absurd rfl h
    · rw [if_neg hd] at h ⊢
      refine ⟨hh, ?_, ?_, ?_⟩
      · intro h1
        rw [h1] at hd
        simp at hd
      · intro h1
        rw [h1] at hd
        simp at hd
      · unfold ClassifiedDirectory IsDirectory at *
        cases hs : stat (name ++ e.d_name) with
        | none => cases ht : e.d_type <;> simp [hs, ht, ENOENT] at h ⊢
        | some d => cases d <;> cases ht : e.d_type <;> simp [hs, ht] at h ⊢
  · rw [if_pos hc] at h
    exact absurd rfl h

/-- An accepted name is the name of an accepted entry of the listing. -/
theorem mem_acceptedNames (showHidden : Bool) (stat : Stat) (name : CStr) (flag_dir : Int)
    (filter : Option (List NameFilter)) (dir : DirStream) (x : CStr) :
    x ∈ acceptedNames showHidden stat name flag_dir filter dir ↔
      ∃ r ∈ dir.steps, (entryFilter showHidden stat name flag_dir filter r.entry 0).1 ≠ 0
        ∧ r.entry.d_name = x := by
  unfold acceptedNames accepted
  simp only [List.mem_map, List.mem_filter, decide_eq_true_eq]
  constructor
  · rintro ⟨e, ⟨⟨r, hr, rfl⟩, hacc⟩, rfl⟩
    exact ⟨r, hr, hacc, rfl⟩
  · rintro ⟨r, hr, hacc, rfl⟩
    exact ⟨r.entry, ⟨⟨r, hr, rfl⟩, hacc⟩, rfl⟩

/-! ## Lemmas on the order of `q_cmp` and on `qsort` -/

theorem strcmp_total (a b : CStr) : strcmp a b ≤ 0 ∨ strcmp b a ≤ 0 := by
  induction a generalizing b with
  | nil =>
    cases b with
    | nil => simp [strcmp]
    | cons y ys =>
      left
      simp [strcmp]
  | cons x xs ih =>
    cases b with
    | nil =>
      right
      simp [strcmp]
    | cons y ys =>
      by_cases h : x = y
      · subst h
        simpa [strcmp] using ih ys
      · have h2 : ¬ y = x := fun k => h k.symm
        simp only [strcmp, if_neg h, if_neg h2]
        omega

theorem strcmp_trans (a b c : CStr) (ha : NoNul a) (hb : NoNul b)
    (hab : strcmp a b ≤ 0) (hbc : strcmp b c ≤ 0) : strcmp a c ≤ 0 := by
  induction a generalizing b c with
  | nil =>
    cases c with
    | nil => simp [strcmp]
    | cons z zs => simp [strcmp]
  | cons x xs ih =>
    have hx : x ≠ 0 := ha x (List.mem_cons_self x xs)
    have ha2 : NoNul xs := fun t ht => ha t (List.mem_cons_of_mem x ht)
    cases b with
    | nil =>
      simp only [strcmp] at hab
      omega
    | cons y ys =>
      have hy : y ≠ 0 := hb y (List.mem_cons_self y ys)
      have hb2 : NoNul ys := fun t ht => hb t (List.mem_cons_of_mem y ht)
      cases c with
      | nil =>
        simp only [strcmp] at hbc
        omega
      | cons z zs =>
        simp only [strcmp] at hab hbc ⊢
        by_cases h1 : x = y
        · subst h1
          by_cases h2 : x = z
          · subst h2
            simp only [if_true] at hab hbc ⊢
            exact ih ys zs ha2 hb2 hab hbc
          · simp only [if_true, if_neg h2] at hab hbc ⊢
            exact hbc
        · by_cases h2 : y = z
          · subst h2
            simp only [if_neg h1, if_true] at hab hbc ⊢
            exact hab
          · simp only [if_neg h1, if_neg h2] at hab hbc
            have h3 : ¬ x = z := by omega
            simp only [if_neg h3]
            omega

theorem sorted_orderedInsert_on {α : Type} (r : α → α → Prop) [DecidableRel r]
    (P : α → Prop) (htot : ∀ a b, P a → P b → r a b ∨ r b a)
    (htr : ∀ a b c, P a → P b → r a b → r b c → r a c) (a : α) (ha : P a) :
    ∀ l : List α, (∀ x ∈ l, P x) → l.Sorted r → (l.orderedInsert r a).Sorted r := by
  intro l
  induction l with
  | nil =>
    intro _ _
    simp
  | cons b t ih =>
    intro hP hs
    have hb : P b := hP b (List.mem_cons_self b t)
    have hPt : ∀ x ∈ t, P x := fun x hx => hP x (List.mem_cons_of_mem b hx)
    have hbt : ∀ x ∈ t, r b x := List.rel_of_sorted_cons hs
    by_cases hab : r a b
    · rw [List.orderedInsert, if_pos hab]
      refine List.sorted_cons.2 ⟨?_, hs⟩
      intro x hx
      rcases List.mem_cons.1 hx with rfl | hx2
      · exact hab
      · exact htr a b x ha hb hab (hbt x hx2)
    · rw [List.orderedInsert, if_neg hab]
      have hba : r b a := (htot a b ha hb).resolve_left hab
      refine List.sorted_cons.2 ⟨?_, ih hPt hs.of_cons⟩
      intro x hx
      rcases (List.mem_orderedInsert r).1 hx with rfl | hx2
      · exact hba
      · exact hbt x hx2

theorem sorted_insertionSort_on {α : Type} (r : α → α → Prop) [DecidableRel r]
    (P : α → Prop) (htot : ∀ a b, P a → P b → r a b ∨ r b a)
    (htr : ∀ a b c, P a → P b → r a b → r b c → r a c) :
    ∀ l : List α, (∀ x ∈ l, P x) → (l.insertionSort r).Sorted r := by
  intro l
  induction l with
  | nil =>
    intro _
    simp
  | cons b t ih =>
    intro hP
    have hPt : ∀ x ∈ t, P x := fun x hx => hP x (List.mem_cons_of_mem b hx)
    rw [List.insertionSort]
    refine sorted_orderedInsert_on r P htot htr b (hP b (List.mem_cons_self b t)) _ ?_ (ih hPt)
    intro x hx
    exact hPt x ((List.mem_insertionSort r).1 hx)

theorem sorted_qsort (l : List CStr) (h : ∀ x ∈ l, NoNul x) : (qsort l).Sorted StrLe :=
  sorted_insertionSort_on (fun a b => q_cmp a b ≤ 0) NoNul
    (fun a b _ _ => strcmp_total a b)
    (fun a b c ha hb hab hbc => strcmp_trans a b c ha hb hab hbc) l h

theorem perm_qsort (l : List CStr) : (qsort l).Perm l :=
  List.perm_insertionSort _ l

/-! ## The suffix test and the archive test -/

/-- C1: the suffix test of `FilterIsFile` (its loop over the filter table)
succeeds exactly when the table has an entry such that the name is at least as
long as the entry and the last bytes of the name, as many as the entry is long,
equal the entry's string when ASCII letters are compared without case. -/
theorem suffix_test_iff_some_entry_ends_name (name : CStr) (tbl : List NameFilter)
    (hname : NoNul name) (htbl : ∀ f ∈ tbl, NoNul f.String) :
    suffixLoop name tbl = true ↔ ∃ f ∈ tbl, EndsWithFilter name f := by
  rw [suffixLoop_iff]
  constructor
  · rintro ⟨f, hf, hlen, hcmp⟩
    exact ⟨f, hf, hlen,
      (strcasecmp_eq_zero_iff _ _ (noNul_drop name _ hname) (htbl f hf)).1 hcmp⟩
  · rintro ⟨f, hf, hlen, heq⟩
    exact ⟨f, hf, hlen,
      (strcasecmp_eq_zero_iff _ _ (noNul_drop name _ hname) (htbl f hf)).2 heq⟩

theorem suffix_test_iff_some_entry_ends_name_witness :
    NoNul (cstr "Film.MKV") ∧ (∀ f ∈ [FILTER ".ts", FILTER ".mkv"], NoNul f.String)
      ∧ (suffixLoop (cstr "Film.MKV") [FILTER ".ts", FILTER ".mkv"] = true ↔
        ∃ f ∈ [FILTER ".ts", FILTER ".mkv"], EndsWithFilter (cstr "Film.MKV") f) :=
  ⟨by decide, by decide,
    suffix_test_iff_some_entry_ends_name (cstr "Film.MKV") [FILTER ".ts", FILTER ".mkv"]
      (by decide) (by decide)⟩

theorem archiveFilters_eq :
    ArchiveFilters = archiveSuffixes.map (fun s => (⟨s.length, s⟩ : NameFilter)) := by
  decide

/-- C2 as stated fails in a build without `USE_AVFS`: there `IsArchive` answers 0
for `/media/comics.cbz`, a path that ends with the archive suffix `.cbz`. -/
theorem IsArchive_without_avfs_rejects_cbz :
    ¬ (IsArchive false (cstr "/media/comics.cbz") ≠ 0 ↔
        ∃ s ∈ archiveSuffixes, EndsWithCI (cstr "/media/comics.cbz") s) := by
  decide

/-- C2 (amended): in a build with `USE_AVFS`, `IsArchive(path)` is true exactly
when the path ends, without regard to case, with one of `.cbz .cbr .zip .rar .tar
.tar.gz .tgz`; in a build without `USE_AVFS` it is false for every path. The
function has no filter argument and reads no filter global, so in both builds the
result does not depend on the active media filter. -/
theorem IsArchive_iff_archive_suffix_in_avfs_build (filename : CStr) :
    (IsArchive true filename ≠ 0 ↔ ∃ s ∈ archiveSuffixes, EndsWithCI filename s)
      ∧ IsArchive false filename = 0 := by
  refine ⟨?_, by simp [IsArchive]⟩
  have h1 : IsArchive true filename ≠ 0 ↔ suffixLoop filename ArchiveFilters = true := by
    unfold IsArchive
    cases suffixLoop filename ArchiveFilters <;> simp
  rw [h1, suffixLoop_iff, archiveFilters_eq]
  constructor
  · rintro ⟨f, hf, hlen, hcmp⟩
    obtain ⟨s, hs, rfl⟩ := List.mem_map.1 hf
    have hl : (filename.drop (filename.length - s.length)).length = s.length := by
      simp only [List.length_drop]
      simp only at hlen
      omega
    exact ⟨s, hs, hlen, (strcasecmp_eq_zero_iff_of_length _ _ hl).1 hcmp⟩
  · rintro ⟨s, hs, hlen, heq⟩
    have hl : (filename.drop (filename.length - s.length)).length = s.length := by
      simp only [List.length_drop]
      omega
    exact ⟨⟨s.length, s⟩, List.mem_map.2 ⟨s, hs, rfl⟩, hlen,
      (strcasecmp_eq_zero_iff_of_length _ _ hl).2 heq⟩

/-! ## The directory scanner -/

/-- C3: with a filter table `F`, every name that `ScanDirectory` hands back in
file mode (`flag_dir = 0`) passes the suffix test of `FilterIsFile` against `F`. -/
theorem file_scan_names_pass_suffix_test (showHidden : Bool) (stat : Stat)
    (dir : DirStream) (name : CStr) (F : List NameFilter) (x : CStr)
    (hx : x ∈ (ScanDirectory showHidden stat dir name 0 (some F)).namelist.toList) :
    suffixLoop x F = true := by
  obtain ⟨_, r, _, hne, _, rfl⟩ :=
    mem_ScanDirectory_toList showHidden stat dir name 0 (some F) x hx
  have hfile : (FilterIsFile showHidden stat name (some F) r.entry 0).1 ≠ 0 := by
    simpa [entryFilter] using hne
  exact ((FilterIsFile_accepts_iff showHidden stat name (some F) r.entry).1 hfile).2.1 F rfl

theorem file_scan_names_pass_suffix_test_witness :
    cstr "clip.MKV" ∈ (ScanDirectory false mediaStat mediaDir (cstr "/media/") 0
        (some VideoFilters)).namelist.toList
      ∧ suffixLoop (cstr "clip.MKV") VideoFilters = true :=
  ⟨by decide,
    file_scan_names_pass_suffix_test false mediaStat mediaDir (cstr "/media/") VideoFilters
      (cstr "clip.MKV") (by decide)⟩

/-- C4 as stated fails: in `/media/` the entry `pipe` passes the hidden-file
policy and is not a directory (the filesystem reports a FIFO), yet the successful
file-mode scan without filter does not hand it back. -/
theorem file_scan_without_filter_drops_fifo :
    ¬ (0 ≤ (ScanDirectory false mediaStat mediaDir (cstr "/media/") 0 none).ret →
        ∀ r ∈ mediaDir.steps, PassesHiddenPolicy false r.entry.d_name →
          NotDirectory mediaStat (cstr "/media/") r.entry →
          r.entry.d_name
            ∈ (ScanDirectory false mediaStat mediaDir (cstr "/media/") 0 none).namelist.toList) := by
  decide

/-- C4 (amended): for a directory with room for a name at the start (`fstat`
reports 0 or at least 24 bytes), a successful file-mode scan without filter hands
back exactly the names of the entries that pass the hidden-file test of file mode
(the name does not begin with `.`, or hidden files are shown) and are classified
as a file: reported as a regular file, or reported as a symbolic link or without
type while `stat` of the joined path reports something that is not a directory.
An entry of any other definite type (directory, FIFO, socket, device) gives no
name. -/
theorem file_scan_without_filter_returns_classified_files (showHidden : Bool)
    (stat : Stat) (dir : DirStream) (name : CStr) (x : CStr)
    (hroom : hasRoom dir = true)
    (hok : 0 ≤ (ScanDirectory showHidden stat dir name 0 none).ret) :
    x ∈ (ScanDirectory showHidden stat dir name 0 none).namelist.toList
      ↔ ∃ r ∈ dir.steps, r.entry.d_name = x
          ∧ (showHidden = true ∨ x.head? ≠ some 46)
          ∧ ClassifiedFile stat name r.entry := by
  have hfr := ScanDirectory_not_freed showHidden stat dir name 0 none hroom
  have hacc : x ∈ (ScanDirectory showHidden stat dir name 0 none).namelist.toList
      ↔ x ∈ acceptedNames showHidden stat name 0 none dir := by
    rw [(ScanDirectory_ok showHidden stat dir name 0 none hok hfr).1]
    simp [NameList.toList, qsort, List.mem_insertionSort]
  rw [hacc, mem_acceptedNames]
  constructor
  · rintro ⟨r, hr, hne, rfl⟩
    have hfile : (FilterIsFile showHidden stat name none r.entry 0).1 ≠ 0 := by
      simpa [entryFilter] using hne
    obtain ⟨hhid, _, hcf⟩ := (FilterIsFile_accepts_iff showHidden stat name none r.entry).1 hfile
    exact ⟨r, hr, rfl, hhid, hcf⟩
  · rintro ⟨r, hr, rfl, hhid, hcf⟩
    refine ⟨r, hr, ?_, rfl⟩
    have := (FilterIsFile_accepts_iff showHidden stat name none r.entry).2
      ⟨hhid, (fun tbl h => by cases h), hcf⟩
    simpa [entryFilter] using this

theorem file_scan_without_filter_returns_classified_files_witness :
    hasRoom mediaDir = true
      ∧ 0 ≤ (ScanDirectory false mediaStat mediaDir (cstr "/media/") 0 none).ret
      ∧ (cstr "clip.MKV"
            ∈ (ScanDirectory false mediaStat mediaDir (cstr "/media/") 0 none).namelist.toList
          ↔ ∃ r ∈ mediaDir.steps, r.entry.d_name = cstr "clip.MKV"
              ∧ (false = true ∨ (cstr "clip.MKV").head? ≠ some 46)
              ∧ ClassifiedFile mediaStat (cstr "/media/") r.entry) :=
  ⟨by decide, by decide,
    file_scan_without_filter_returns_classified_files false mediaStat mediaDir
      (cstr "/media/") (cstr "clip.MKV") (by decide) (by decide)⟩

/-- C5: every name that `ScanDirectory` hands back in directory mode
(`flag_dir ≠ 0`), which it does only when it succeeds, is the name of an entry of
the listing classified as a directory: the filesystem reports a directory, or it
reports a symbolic link or no type and `stat` of the joined path reports a
directory. -/
theorem dir_scan_names_are_classified_directories (showHidden : Bool) (stat : Stat)
    (dir : DirStream) (name : CStr) (flag_dir : Int) (filter : Option (List NameFilter))
    (hflag : flag_dir ≠ 0) (x : CStr)
    (hx : x ∈ (ScanDirectory showHidden stat dir name flag_dir filter).namelist.toList) :
    0 ≤ (ScanDirectory showHidden stat dir name flag_dir filter).ret
      ∧ ∃ r ∈ dir.steps, r.entry.d_name = x ∧ ClassifiedDirectory stat name r.entry := by
  obtain ⟨hok, r, hr, hne, hclean, rfl⟩ :=
    mem_ScanDirectory_toList showHidden stat dir name flag_dir filter x hx
  have hne2 : (FilterIsDirectory showHidden stat name r.entry 0).1 ≠ 0 := by
    simpa [entryFilter, hflag] using hne
  have hclean2 : (FilterIsDirectory showHidden stat name r.entry 0).2 = 0 := by
    simpa [entryFilter, hflag] using hclean
  exact ⟨hok, r, hr, rfl,
    (FilterIsDirectory_accepts showHidden stat name r.entry hne2).2.2.2 hclean2⟩

theorem dir_scan_names_are_classified_directories_witness :
    (1 : Int) ≠ 0
      ∧ cstr "Movies"
          ∈ (ScanDirectory false mediaStat mediaDir (cstr "/media/") 1 none).namelist.toList
      ∧ 0 ≤ (ScanDirectory false mediaStat mediaDir (cstr "/media/") 1 none).ret
      ∧ ∃ r ∈ mediaDir.steps, r.entry.d_name = cstr "Movies"
          ∧ ClassifiedDirectory mediaStat (cstr "/media/") r.entry :=
  ⟨by decide, by decide,
    dir_scan_names_are_classified_directories false mediaStat mediaDir (cstr "/media/") 1 none
      (by decide) (cstr "Movies") (by decide)⟩

/-- For a directory with room for a name at the start, the name list of a
successful `ScanDirectory` is in non-decreasing order of `q_cmp` (`strcmp`), it
is a rearrangement of exactly the accepted entry names, its length is the
returned count, and it has no duplicates when the listing has none. -/
theorem scan_result_sorted_rearrangement_with_room (showHidden : Bool) (stat : Stat)
    (dir : DirStream) (name : CStr) (flag_dir : Int) (filter : Option (List NameFilter))
    (hnul : ∀ r ∈ dir.steps, NoNul r.entry.d_name)
    (hroom : hasRoom dir = true)
    (hok : 0 ≤ (ScanDirectory showHidden stat dir name flag_dir filter).ret) :
    ∃ l : List CStr,
      ScanDirectory showHidden stat dir name flag_dir filter
          = ⟨(l.length : Int), NameList.names l⟩
        ∧ l.Sorted StrLe
        ∧ l.Perm (acceptedNames showHidden stat name flag_dir filter dir)
        ∧ ((dir.steps.map (fun r => r.entry.d_name)).Nodup → l.Nodup) := by
  have hfr := ScanDirectory_not_freed showHidden stat dir name flag_dir filter hroom
  have hperm := perm_qsort (acceptedNames showHidden stat name flag_dir filter dir)
  refine ⟨qsort (acceptedNames showHidden stat name flag_dir filter dir), ?_, ?_, hperm, ?_⟩
  · rw [(ScanDirectory_ok showHidden stat dir name flag_dir filter hok hfr).1,
      hperm.length_eq]
  · apply sorted_qsort
    intro x hx
    obtain ⟨r, hr, _, rfl⟩ :=
      (mem_acceptedNames showHidden stat name flag_dir filter dir x).1 hx
    exact hnul r hr
  · intro hnd
    refine hperm.nodup_iff.2 ?_
    have hsub : (acceptedNames showHidden stat name flag_dir filter dir).Sublist
        (dir.steps.map (fun r => r.entry.d_name)) := by
      unfold acceptedNames
      have h1 : ((dir.steps.map (fun r => r.entry)).filter
          (accepted showHidden stat name flag_dir filter)).Sublist
          (dir.steps.map (fun r => r.entry)) := List.filter_sublist _
      have h2 := h1.map (fun e => e.d_name)
      simpa [List.map_map] using h2
    exact hnd.sublist hsub

/-- C6, the code at the failing input: the directory reports 10 bytes and holds
the regular file `a.mkv`, which the loop accepts; the first capacity is 0, the
growth keeps 0 and `realloc(names, 0)` frees the array and returns NULL with
`errno` as it was. The scan returns 0, a success, with the address of the freed
array: the returned list has no name and is not a rearrangement of the accepted
names. -/
theorem successful_scan_drops_accepted_name :
    ScanDirectory false mediaStat tinyGlibcDir (cstr "/media/") 0 none
        = ⟨0, NameList.freed⟩
      ∧ acceptedNames false mediaStat (cstr "/media/") 0 none tinyGlibcDir = [cstr "a.mkv"]
      ∧ (ScanDirectory false mediaStat tinyGlibcDir (cstr "/media/") 0 none).namelist.toList
          = []
      ∧ scanLoop false mediaStat (cstr "/media/") 0 none false ⟨0, [], 0, 0, false⟩
          tinyGlibcDir.steps = ⟨0, [], 0, 0, true⟩ := by
  decide

theorem cstr_dot : cstr "." = [46] := by decide

theorem cstr_dotdot : cstr ".." = [46, 46] := by decide

theorem not_file_and_directory (stat : Stat) (name : CStr) (e : dirent)
    (hf : ClassifiedFile stat name e) (hd : ClassifiedDirectory stat name e) : False := by
  unfold ClassifiedFile at hf
  unfold ClassifiedDirectory at hd
  rcases hf with hf | ⟨_, hf⟩ <;> rcases hd with hd | ⟨hd1, hd⟩
  · rw [hf] at hd
    cases hd
  · rw [hf] at hd1
    rcases hd1 with h | h <;> cases h
  · rename_i ht
    rw [hd] at ht
    rcases ht with h | h <;> cases h
  · rw [hf] at hd
    cases hd

/-- C7: the show-hidden flag `ConfigShowHiddenFiles` of this source is off, and
with the flag off no name that `ScanDirectory` hands back, in directory mode or
in file mode, begins with `.`, so `.` and `..` are not handed back either.
Whatever the flag, directory mode never hands back `.` or `..`; file mode has no
test of these two names and, with the flag on, leaves them out through the
classification: never when the entries so named are classified as directories
(reported as a directory, or as a symbolic link or without type while `stat` of
the joined path reports a directory). -/
theorem scan_hidden_file_policy (showHidden : Bool) (stat : Stat) (dir : DirStream)
    (name : CStr) (flag_dir : Int) (filter : Option (List NameFilter)) (x : CStr)
    (hx : x ∈ (ScanDirectory showHidden stat dir name flag_dir filter).namelist.toList) :
    ConfigShowHiddenFiles = false
      ∧ (showHidden = false → x.head? ≠ some 46 ∧ x ≠ cstr "." ∧ x ≠ cstr "..")
      ∧ (flag_dir ≠ 0 → x ≠ cstr "." ∧ x ≠ cstr "..")
      ∧ (flag_dir = 0 →
          (∀ r ∈ dir.steps, r.entry.d_name = cstr "." ∨ r.entry.d_name = cstr ".." →
            ClassifiedDirectory stat name r.entry) →
          x ≠ cstr "." ∧ x ≠ cstr "..") := by
  obtain ⟨_, r, hr, hne, _, rfl⟩ :=
    mem_ScanDirectory_toList showHidden stat dir name flag_dir filter x hx
  rw [cstr_dot, cstr_dotdot]
  have hoff : (showHidden = true ∨ r.entry.d_name.head? ≠ some 46) → showHidden = false →
      r.entry.d_name.head? ≠ some 46 ∧ r.entry.d_name ≠ [46] ∧ r.entry.d_name ≠ [46, 46] := by
    intro hhid hs
    have h1 : r.entry.d_name.head? ≠ some 46 := by
      rcases hhid with h | h
      · rw [hs] at h
        cases h
      · exact h
    refine ⟨h1, ?_, ?_⟩
    · intro h2
      rw [h2] at h1
      exact h1 rfl
    · intro h2
      rw [h2] at h1
      exact h1 rfl
  by_cases hflag : flag_dir = 0
  · have hfile : (FilterIsFile showHidden stat name filter r.entry 0).1 ≠ 0 := by
      simpa [entryFilter, hflag] using hne
    obtain ⟨hhid, _, hcf⟩ := (FilterIsFile_accepts_iff showHidden stat name filter r.entry).1 hfile
    refine ⟨rfl, hoff hhid, fun h => absurd hflag h, ?_⟩
    intro _ hdirs
    constructor
    · intro h1
      exact not_file_and_directory stat name r.entry hcf (hdirs r hr (Or.inl h1))
    · intro h2
      exact not_file_and_directory stat name r.entry hcf (hdirs r hr (Or.inr h2))
  · have hdir : (FilterIsDirectory showHidden stat name r.entry 0).1 ≠ 0 := by
      simpa [entryFilter, hflag] using hne
    obtain ⟨hhid, h1, h2, _⟩ := FilterIsDirectory_accepts showHidden stat name r.entry hdir
    exact ⟨rfl, hoff hhid, fun _ => ⟨h1, h2⟩, fun h => absurd h hflag⟩

theorem scan_hidden_file_policy_witness :
    cstr "movie.mkv"
        ∈ (ScanDirectory ConfigShowHiddenFiles mediaStat mediaDir (cstr "/media/") 0
            none).namelist.toList
      ∧ ConfigShowHiddenFiles = false
      ∧ (ConfigShowHiddenFiles = false → (cstr "movie.mkv").head? ≠ some 46
          ∧ cstr "movie.mkv" ≠ cstr "." ∧ cstr "movie.mkv" ≠ cstr "..")
      ∧ ((0 : Int) ≠ 0 → cstr "movie.mkv" ≠ cstr "." ∧ cstr "movie.mkv" ≠ cstr "..")
      ∧ ((0 : Int) = 0 →
          (∀ r ∈ mediaDir.steps, r.entry.d_name = cstr "." ∨ r.entry.d_name = cstr ".." →
            ClassifiedDirectory mediaStat (cstr "/media/") r.entry) →
          cstr "movie.mkv" ≠ cstr "." ∧ cstr "movie.mkv" ≠ cstr "..") :=
  ⟨by decide,
    scan_hidden_file_policy ConfigShowHiddenFiles mediaStat mediaDir (cstr "/media/") 0 none
      (cstr "movie.mkv") (by decide)⟩

/-- The out-parameter is left unwritten exactly on the three early returns. -/
theorem ScanDirectory_untouched_iff (showHidden : Bool) (stat : Stat) (dir : DirStream)
    (name : CStr) (flag_dir : Int) (filter : Option (List NameFilter)) :
    (ScanDirectory showHidden stat dir name flag_dir filter).namelist = NameList.untouched
      ↔ dir.opens = false ∨ dir.fstat = none ∨ dir.mallocOk = false := by
  unfold ScanDirectory
  by_cases ho : dir.opens = false
  · rw [if_pos ho]
    simp [ho]
  · rw [if_neg ho]
    cases hf : dir.fstat with
    | none => simp
    | some sz =>
      dsimp only
      by_cases hm : dir.mallocOk = false
      · rw [if_pos hm]
        simp [hm]
      · rw [if_neg hm]
        split_ifs <;> simp [ho, hm]

/-- Once the name array is allocated, every failure that `ScanDirectory` reports
(`errno` set after its loop: enumeration error, failed `stat`, failed `fstat`,
failed allocation of one byte or more) returns -1 and writes NULL to
`*namelist`. -/
theorem ScanDirectory_null_after_loop_failure (showHidden : Bool) (stat : Stat)
    (dir : DirStream) (name : CStr) (flag_dir : Int) (filter : Option (List NameFilter))
    (ho : dir.opens = true) (hf : dir.fstat ≠ none) (hm : dir.mallocOk = true)
    (h : (ScanDirectory showHidden stat dir name flag_dir filter).ret < 0) :
    ScanDirectory showHidden stat dir name flag_dir filter = ⟨-1, NameList.null⟩ := by
  rcases ScanDirectory_cases showHidden stat dir name flag_dir filter with
    hc | hc | ⟨st0, _, _, _, _, _, hc⟩ | ⟨st0, _, _, _, _, _, hc⟩
  · have := (ScanDirectory_untouched_iff showHidden stat dir name flag_dir filter).1
      (by rw [hc])
    rcases this with h1 | h1 | h1
    · rw [ho] at h1
      cases h1
    · exact absurd h1 hf
    · rw [hm] at h1
      cases h1
  · exact hc
  · rw [hc] at h
    simp only at h
    omega
  · rw [hc] at h
    simp only at h
    omega

/-- An enumeration error (`virt_readdir` returns NULL with `errno` set) at the end
of a listing with room for a name at the start makes the scan return a negative
value, whatever was collected before. -/
theorem ScanDirectory_fails_on_enumeration_error (showHidden : Bool) (stat : Stat)
    (dir : DirStream) (name : CStr) (flag_dir : Int) (filter : Option (List NameFilter))
    (hroom : hasRoom dir = true) (h : dir.readErr = true) :
    (ScanDirectory showHidden stat dir name flag_dir filter).ret < 0 := by
  by_contra hc
  have := (ScanDirectory_ok showHidden stat dir name flag_dir filter (not_lt.1 hc)
    (ScanDirectory_not_freed showHidden stat dir name flag_dir filter hroom)).2.1
  rw [h] at this
  cases this

/-- C8, the code at the failing input: the directory opens and is sized, the
allocation of the name array fails; `ScanDirectory` returns -1 and leaves
`*namelist` unwritten instead of writing NULL. -/
theorem scan_array_alloc_failure_leaves_namelist_unwritten :
    ScanDirectory false mediaStat noMemDir (cstr "/media/") 0 none
      = ⟨-1, NameList.untouched⟩ := by
  decide

/-- `ReadDirectory` returns what `ScanDirectory` returns. -/
theorem ReadDirectory_ret (showHidden : Bool) (stat : Stat) (dir : DirStream)
    (name : CStr) (flag_dir : Int) (filter : Option (List NameFilter)) :
    (ReadDirectory showHidden stat dir name flag_dir filter).1
      = (ScanDirectory showHidden stat dir name flag_dir filter).ret := by
  unfold ReadDirectory
  dsimp only
  split_ifs
  · split <;> rfl
  · rfl

/-- C9, the code at the failing input: for `/media/`, whose file-mode scan
without filter accepts three names and meets no error, `ReadDirectory` returns 3,
the number of names, not 0. -/
theorem ReadDirectory_returns_count_not_zero :
    ReadDirectory false mediaStat mediaDir (cstr "/media/") 0 none
      = (3, [cstr "clip.MKV", cstr "movie.mkv", cstr "poster.jpg"]) := by
  decide

/-! ## The directory stack of the browser -/

theorem CreateMenu_DirStack (w : World) (b : Browser) :
    (CreateMenu w b).DirStack = b.DirStack := rfl

theorem NewDir_DirStack (w : World) (b : Browser) (path : CStr)
    (filter : Option (List NameFilter)) :
    (NewDir w b path filter).DirStack
      = (if path.getLast? = some 47 then path else path ++ cstr "/") :: b.DirStack := rfl

/-- The path that `NewDir` stores ends with the separator. -/
theorem NewDir_pathname_ends_with_separator (path : CStr) :
    (if path.getLast? = some 47 then path else path ++ cstr "/").getLast? = some 47 := by
  split_ifs with h
  · exact h
  · have : cstr "/" = [47] := by decide
    rw [this]
    simp

theorem LevelUp_DirStack (w : World) (b : Browser) :
    (LevelUp w b).1.DirStack = b.DirStack ∨ (LevelUp w b).1.DirStack = b.DirStack.tail := by
  unfold LevelUp
  split_ifs
  · exact Or.inl rfl
  · right
    dsimp only
    split
    · split <;> rfl
    · rfl

theorem Selected_DirStack (w : World) (b b2 : Browser) (st : eOSState)
    (played : Option CStr) (h : Selected w b = some (b2, st, played)) :
    b2.DirStack = b.DirStack ∨ b2.DirStack = b.DirStack.tail
      ∨ ∃ path : CStr, b2.DirStack
          = (if path.getLast? = some 47 then path else path ++ cstr "/") :: b.DirStack := by
  unfold Selected at h
  by_cases hneg : b.current < 0
  · rw [if_pos hneg] at h
    cases h
  · rw [if_neg hneg] at h
    cases hitem : b.items[b.current.toNat]? with
    | none =>
      rw [hitem] at h
      cases h
    | some text =>
      rw [hitem] at h
      dsimp only at h
      split_ifs at h with h1 h2 h3 h4 <;> cases h
      · exact (LevelUp_DirStack w b).elim Or.inl (fun k => Or.inr (Or.inl k))
      · exact Or.inr (Or.inr ⟨_, NewDir_DirStack w b _ _⟩)
      · exact Or.inl rfl
      · exact Or.inl rfl
      · exact Or.inr (Or.inr ⟨_, NewDir_DirStack w b _ _⟩)

/-- C10: in every state reached from opening the browser with a non-empty root
path through Enter (`Selected`) and Leave (`LevelUp`) events, every path on the
directory stack ends with the separator `/`. -/
theorem reachable_stack_paths_end_with_separator (root : CStr) (b : Browser)
    (_hroot : root ≠ []) (hb : Reachable root b) :
    ∀ p ∈ b.DirStack, p.getLast? = some 47 := by
  induction hb with
  | opened w b0 filter =>
    intro p hp
    have hs : (cBrowser w b0 (some root) filter).DirStack
        = [if root.getLast? = some 47 then root else root ++ cstr "/"] := rfl
    rw [hs] at hp
    rw [List.mem_singleton.1 hp]
    exact NewDir_pathname_ends_with_separator root
  | enter w i b b2 st played _ hsel ih =>
    intro p hp
    rcases Selected_DirStack w _ b2 st played hsel with h | h | ⟨path, h⟩
    · rw [h] at hp
      exact ih p hp
    · rw [h] at hp
      exact ih p (List.mem_of_mem_tail hp)
    · rw [h] at hp
      rcases List.mem_cons.1 hp with rfl | hp2
      · exact NewDir_pathname_ends_with_separator path
      · exact ih p hp2
  | leave w b _ ih =>
    intro p hp
    rcases LevelUp_DirStack w b with h | h
    · rw [h] at hp
      exact ih p hp
    · rw [h] at hp
      exact ih p (List.mem_of_mem_tail hp)

theorem reachable_stack_paths_end_with_separator_witness :
    cstr "/media" ≠ []
      ∧ (NewDir mediaWorld { browserAtMedia with current := 0 } (cstr "/media/Movies/")
          (some VideoFilters)).DirStack = [cstr "/media/Movies/", cstr "/media/"]
      ∧ ∀ p ∈ (NewDir mediaWorld { browserAtMedia with current := 0 } (cstr "/media/Movies/")
          (some VideoFilters)).DirStack, p.getLast? = some 47 :=
  ⟨by decide, by decide,
    reachable_stack_paths_end_with_separator (cstr "/media") _ (by decide)
      (Reachable.enter mediaWorld 0 browserAtMedia _ eOSState.osContinue none
        (Reachable.opened mediaWorld ⟨0, [], none, [], -1⟩ (some VideoFilters))
        (by decide))⟩

/-! ## Lemmas on `strcmp`, `strrchr` and the popped name -/

theorem strcmp_eq_zero_iff (a b : CStr) (ha : NoNul a) (hb : NoNul b) :
    strcmp a b = 0 ↔ a = b := by
  induction a generalizing b with
  | nil =>
    cases b with
    | nil => simp [strcmp]
    | cons y ys =>
      have hy : y ≠ 0 := hb y (List.mem_cons_self y ys)
      simp [strcmp]
      omega
  | cons x xs ih =>
    cases b with
    | nil =>
      have hx : x ≠ 0 := ha x (List.mem_cons_self x xs)
      simp [strcmp]
      omega
    | cons y ys =>
      have ha2 : NoNul xs := fun c hc => ha c (List.mem_cons_of_mem x hc)
      have hb2 : NoNul ys := fun c hc => hb c (List.mem_cons_of_mem y hc)
      by_cases h : x = y
      · simp [strcmp, h, ih ys ha2 hb2]
      · simp [strcmp, h]
        omega

theorem strrchr_eq_none_iff (s : CStr) (c : Nat) : strrchr s c = none ↔ c ∉ s := by
  induction s with
  | nil => simp [strrchr]
  | cons a t ih =>
    by_cases hm : c ∈ t
    · have hne : strrchr t c ≠ none := fun k => (ih.1 k) hm
      obtain ⟨r, hr⟩ := Option.ne_none_iff_exists'.1 hne
      simp [strrchr, hr, hm]
    · have hn : strrchr t c = none := ih.2 hm
      by_cases hac : a = c
      · simp [strrchr, hn, hac]
      · have hca : ¬ c = a := fun k => hac k.symm
        simp [strrchr, hn, hac, hm, hca]

theorem strrchr_of_mem (s : CStr) (c : Nat) (h : c ∈ s) :
    strrchr s c = some (c :: afterLast c s) := by
  induction s with
  | nil => simp at h
  | cons a t ih =>
    by_cases hm : c ∈ t
    · simp [strrchr, ih hm, afterLast, hm]
    · have hn : strrchr t c = none := (strrchr_eq_none_iff t c).2 hm
      have hac : a = c := by
        rcases List.mem_cons.1 h with k | k
        · exact k.symm
        · exact absurd k hm
      simp [strrchr, hn, afterLast, hm, hac]

/-- The text `afterLast c s` is what follows the last `c` of `s`. -/
theorem afterLast_spec (s : CStr) (c : Nat) (h : c ∈ s) :
    ∃ pre, s = pre ++ c :: afterLast c s ∧ c ∉ afterLast c s := by
  induction s with
  | nil => simp at h
  | cons a t ih =>
    by_cases hm : c ∈ t
    · obtain ⟨pre, hpre, hnot⟩ := ih hm
      refine ⟨a :: pre, ?_, ?_⟩
      · simp only [afterLast, if_pos hm, List.cons_append]
        rw [← hpre]
      · simpa [afterLast, hm] using hnot
    · have hac : a = c := by
        rcases List.mem_cons.1 h with k | k
        · exact k.symm
        · exact absurd k hm
      refine ⟨[], ?_, ?_⟩
      · simp [afterLast, hm, hac]
      · simp [afterLast, hm, hac]

theorem cstr_slash : cstr "/" = [47] := by decide

/-- The stack entry `NewDir` stores for `p`, less its last byte, is `p` without
one trailing separator. -/
theorem normalized_dropLast (p : CStr) : (normalized p).dropLast = stripSlash p := by
  unfold normalized stripSlash
  split_ifs with h
  · rfl
  · rw [cstr_slash]
    simp

theorem poppedName_normalized (p : CStr) (h : 47 ∈ stripSlash p) :
    poppedName (normalized p) = some (trailingComponent p) := by
  unfold poppedName trailingComponent
  rw [normalized_dropLast, strrchr_of_mem _ _ h]
  rfl

theorem NewDir_eq (w : World) (b : Browser) (path : CStr)
    (filter : Option (List NameFilter)) :
    NewDir w b path filter = CreateMenu w
      { b with
        DirStackSize := if b.DirStackUsed ≥ b.DirStackSize then b.DirStackUsed + 1
          else b.DirStackSize,
        DirStack := normalized path :: b.DirStack, Filter := filter } := rfl

/-- What `LevelUp` does when the stack holds more than one entry. -/
theorem LevelUp_eq (w : World) (b : Browser) (h : b.DirStackUsed > 1) :
    LevelUp w b =
      (match poppedName (b.DirStack.headD []) with
        | some n => selectByName n (CreateMenu w { b with DirStack := b.DirStack.tail })
        | none => CreateMenu w { b with DirStack := b.DirStack.tail },
       eOSState.osContinue) := by
  unfold LevelUp poppedName selectByName
  rw [if_neg (by omega)]
  dsimp only
  cases strrchr (b.DirStack.headD []).dropLast 47 with
  | none => rfl
  | some name =>
    dsimp only
    cases List.findIdx? (fun text => decide (strcmp text name.tail = 0))
      (CreateMenu w { b with DirStack := b.DirStack.tail }).items <;> rfl

/-! ## Push and pop of the directory stack -/

/-- C11: on a stack with at least one entry, `NewDir` of a non-empty path followed
by `LevelUp` pops what was pushed: the stack holds the same entries in the same
order as before the push (and `LevelUp` returns `osContinue`). -/
theorem push_then_pop_restores_stack (w1 w2 : World) (b : Browser) (p : CStr)
    (filter : Option (List NameFilter)) (hstack : b.DirStack ≠ []) (_hp : p ≠ []) :
    (LevelUp w2 (NewDir w1 b p filter)).1.DirStack = b.DirStack
      ∧ (LevelUp w2 (NewDir w1 b p filter)).2 = eOSState.osContinue := by
  have hused : (NewDir w1 b p filter).DirStackUsed > 1 := by
    unfold Browser.DirStackUsed
    rw [NewDir_DirStack]
    have : 0 < b.DirStack.length := List.length_pos.2 hstack
    simp only [List.length_cons]
    omega
  rw [LevelUp_eq w2 _ hused]
  refine ⟨?_, rfl⟩
  dsimp only
  cases poppedName ((NewDir w1 b p filter).DirStack.headD []) with
  | none => rfl
  | some n =>
    dsimp only
    unfold selectByName
    split <;> rfl

theorem push_then_pop_restores_stack_witness :
    browserAtMedia.DirStack ≠ [] ∧ cstr "/media/Music" ≠ []
      ∧ (LevelUp mediaWorld (NewDir mediaWorld browserAtMedia (cstr "/media/Music")
          (some VideoFilters))).1.DirStack = browserAtMedia.DirStack
      ∧ (LevelUp mediaWorld (NewDir mediaWorld browserAtMedia (cstr "/media/Music")
          (some VideoFilters))).2 = eOSState.osContinue :=
  ⟨by decide, by decide,
    push_then_pop_restores_stack mediaWorld mediaWorld browserAtMedia (cstr "/media/Music")
      (some VideoFilters) (by decide) (by decide)⟩

theorem NewDir_top (w : World) (b : Browser) (p : CStr)
    (filter : Option (List NameFilter)) :
    (NewDir w b p filter).DirStack.headD [] = normalized p := rfl

theorem NewDir_DirStackUsed (w : World) (b : Browser) (p : CStr)
    (filter : Option (List NameFilter)) (hstack : b.DirStack ≠ []) :
    (NewDir w b p filter).DirStackUsed > 1 := by
  unfold Browser.DirStackUsed
  rw [NewDir_DirStack]
  have : 0 < b.DirStack.length := List.length_pos.2 hstack
  simp only [List.length_cons]
  omega

/-- C13: when the stack holds exactly one entry, `LevelUp` returns `osEnd` and
changes nothing: the stack, its depth and the entry list are as before. -/
theorem leave_at_depth_one_exits_unchanged (w : World) (b : Browser)
    (h : b.DirStackUsed = 1) :
    LevelUp w b = (b, eOSState.osEnd) := by
  unfold LevelUp
  rw [if_pos (by omega)]

theorem leave_at_depth_one_exits_unchanged_witness :
    browserAtMedia.DirStackUsed = 1
      ∧ LevelUp mediaWorld browserAtMedia = (browserAtMedia, eOSState.osEnd) :=
  ⟨by decide, leave_at_depth_one_exits_unchanged mediaWorld browserAtMedia (by decide)⟩

/-- C14: whatever the stack held before, the constructor with a non-empty root
path `r` leaves exactly one entry on the stack: `r`, with `/` appended when `r`
does not already end in `/`. -/
theorem open_with_root_resets_stack (w : World) (b : Browser) (r : CStr)
    (filter : Option (List NameFilter)) (_hr : r ≠ []) :
    (cBrowser w b (some r) filter).DirStack
      = [if r.getLast? = some 47 then r else r ++ cstr "/"] := rfl

theorem open_with_root_resets_stack_witness :
    cstr "/srv" ≠ []
      ∧ (cBrowser mediaWorld
          (NewDir mediaWorld browserAtMedia (cstr "/media/Music/") (some VideoFilters))
          (some (cstr "/srv")) none).DirStack = [cstr "/srv/"] :=
  ⟨by decide,
    open_with_root_resets_stack mediaWorld
      (NewDir mediaWorld browserAtMedia (cstr "/media/Music/") (some VideoFilters))
      (cstr "/srv") none (by decide)⟩

/-! ## The entry list -/

/-- After a scan that failed, `ReadDirectory` passes no name to the call back. -/
theorem ReadDirectory_names_failed (showHidden : Bool) (stat : Stat) (dir : DirStream)
    (name : CStr) (flag_dir : Int) (filter : Option (List NameFilter))
    (h : (ScanDirectory showHidden stat dir name flag_dir filter).ret < 0) :
    (ReadDirectory showHidden stat dir name flag_dir filter).2 = [] := by
  unfold ReadDirectory
  dsimp only
  rw [if_neg (by omega)]

/-- After a scan that hands back a freed array, `ReadDirectory` has no name to
pass to the call back and frees the array a second time. -/
theorem ReadDirectory_of_freed (showHidden : Bool) (stat : Stat) (dir : DirStream)
    (name : CStr) (flag_dir : Int) (filter : Option (List NameFilter))
    (h : (ScanDirectory showHidden stat dir name flag_dir filter).namelist = NameList.freed) :
    (ReadDirectory showHidden stat dir name flag_dir filter).2 = []
      ∧ freesTwice showHidden stat dir name flag_dir filter = true := by
  have hret : 0 ≤ (ScanDirectory showHidden stat dir name flag_dir filter).ret := by
    rcases ScanDirectory_cases showHidden stat dir name flag_dir filter with
      hc | hc | ⟨st0, _, _, _, _, _, hc⟩ | ⟨st0, _, _, _, _, _, hc⟩
    · rw [hc] at h
      cases h
    · rw [hc] at h
      cases h
    · rw [hc]
      exact Int.natCast_nonneg _
    · rw [hc]
      exact Int.natCast_nonneg _
  constructor
  · unfold ReadDirectory
    dsimp only
    rw [h]
    split_ifs <;> rfl
  · unfold freesTwice
    dsimp only
    rw [h]
    simpa using hret

/-- The rescan of a directory that reports 10 bytes and holds `a.mkv`, with the
allocator of glibc: both scans return 0 with the freed array, the list gets no
name, and each `ReadDirectory` frees the array a second time. -/
theorem rescan_of_tiny_directory_frees_twice :
    (CreateMenu tinyGlibcWorld
        { DirStackSize := 1, DirStack := [cstr "/media/"], Filter := none,
          items := [], current := -1 }).items = []
      ∧ acceptedNames false mediaStat (cstr "/media/") 0 none tinyGlibcDir = [cstr "a.mkv"]
      ∧ freesTwice false mediaStat tinyGlibcDir (cstr "/media/") 0 none = true := by
  decide

/-- What `Selected` does with an item that is not the parent link. -/
theorem Selected_entry (w : World) (b : Browser) (e : CStr) (hcur : 0 ≤ b.current)
    (hitem : b.items[b.current.toNat]? = some e)
    (hnp : ¬ (b.current = 0 ∧ b.DirStackUsed > 1)) :
    Selected w b =
      if (IsDirectory w.stat (b.DirStack.headD [] ++ e) 0).1 = 0 then
        if IsArchive w.USE_AVFS (b.DirStack.headD [] ++ e) ≠ 0 then
          some (NewDir w b (b.DirStack.headD [] ++ e ++ cstr "#") b.Filter,
            eOSState.osContinue, none)
        else
          some (b, eOSState.osEnd, some (b.DirStack.headD [] ++ e))
      else if strcmp e (cstr "AUDIO_TS") = 0 ∨ strcmp e (cstr "VIDEO_TS") = 0 then
        some (b, eOSState.osEnd, some (cstr "dvdnav:///" ++ b.DirStack.headD []))
      else
        some (NewDir w b (b.DirStack.headD [] ++ e ++ cstr "/") b.Filter,
          eOSState.osContinue, none) := by
  unfold Selected
  rw [if_neg (by omega), hitem]
  dsimp only
  rw [if_neg hnp]

theorem IsDirectory_of_dir (stat : Stat) (f : CStr) (h : stat f = some true) :
    (IsDirectory stat f 0).1 = 1 := by
  unfold IsDirectory
  rw [h]
  rfl

theorem IsDirectory_of_file (stat : Stat) (f : CStr) (h : stat f = some false) :
    (IsDirectory stat f 0).1 = 0 := by
  unfold IsDirectory
  rw [h]
  rfl

/-- The archive test is true exactly in a build with `USE_AVFS`, for a path that
ends with an archive suffix. -/
theorem IsArchive_ne_zero_iff (avfs : Bool) (filename : CStr) :
    IsArchive avfs filename ≠ 0
      ↔ avfs = true ∧ ∃ s ∈ archiveSuffixes, EndsWithCI filename s := by
  cases avfs with
  | false => simp [IsArchive]
  | true =>
    have h1 : IsArchive true filename ≠ 0 ↔ suffixLoop filename ArchiveFilters = true := by
      unfold IsArchive
      cases suffixLoop filename ArchiveFilters <;> simp
    rw [h1, suffixLoop_iff, archiveFilters_eq]
    simp only [true_and]
    constructor
    · rintro ⟨f, hf, hlen, hcmp⟩
      obtain ⟨s, hs, rfl⟩ := List.mem_map.1 hf
      have hl : (filename.drop (filename.length - s.length)).length = s.length := by
        simp only [List.length_drop]
        simp only at hlen
        omega
      exact ⟨s, hs, hlen, (strcasecmp_eq_zero_iff_of_length _ _ hl).1 hcmp⟩
    · rintro ⟨s, hs, hlen, heq⟩
      have hl : (filename.drop (filename.length - s.length)).length = s.length := by
        simp only [List.length_drop]
        omega
      exact ⟨⟨s.length, s⟩, List.mem_map.2 ⟨s, hs, rfl⟩, hlen,
        (strcasecmp_eq_zero_iff_of_length _ _ hl).2 heq⟩

/-- A name that ends with a suffix still does behind any prefix. -/
theorem EndsWithCI_append (top e s : CStr) (h : EndsWithCI e s) :
    EndsWithCI (top ++ e) s := by
  obtain ⟨hlen, heq⟩ := h
  refine ⟨by simp only [List.length_append]; omega, ?_⟩
  have hk : (top ++ e).length - s.length = top.length + (e.length - s.length) := by
    simp only [List.length_append]
    omega
  rw [hk, List.drop_append]
  exact heq

theorem noNul_marker_names : NoNul (cstr "AUDIO_TS") ∧ NoNul (cstr "VIDEO_TS") := by
  decide

/-- C16: when the selected item (not the parent link) names an entry `e` that
`stat` reports as a directory and that is neither `AUDIO_TS` nor `VIDEO_TS`,
`Selected` returns `osContinue` and the stack becomes `DirStack[0] + e + "/"` at
index 0, followed by the previous entries in their previous order. -/
theorem enter_directory_pushes_it (w : World) (b : Browser) (top e : CStr)
    (rest : List CStr) (hstack : b.DirStack = top :: rest) (hcur : 0 ≤ b.current)
    (hitem : b.items[b.current.toNat]? = some e)
    (hnp : ¬ (b.current = 0 ∧ b.DirStackUsed > 1)) (hnul : NoNul e)
    (hdir : w.stat (top ++ e) = some true)
    (h1 : e ≠ cstr "AUDIO_TS") (h2 : e ≠ cstr "VIDEO_TS") :
    Selected w b
        = some (NewDir w b (top ++ e ++ cstr "/") b.Filter, eOSState.osContinue, none)
      ∧ (NewDir w b (top ++ e ++ cstr "/") b.Filter).DirStack
        = (top ++ e ++ cstr "/") :: top :: rest := by
  have htop : b.DirStack.headD [] = top := by rw [hstack]; rfl
  constructor
  · rw [Selected_entry w b e hcur hitem hnp, htop, IsDirectory_of_dir _ _ hdir]
    rw [if_neg (by decide)]
    have k1 : ¬ strcmp e (cstr "AUDIO_TS") = 0 := fun k =>
      h1 ((strcmp_eq_zero_iff _ _ hnul noNul_marker_names.1).1 k)
    have k2 : ¬ strcmp e (cstr "VIDEO_TS") = 0 := fun k =>
      h2 ((strcmp_eq_zero_iff _ _ hnul noNul_marker_names.2).1 k)
    rw [if_neg (by tauto)]
  · rw [NewDir_DirStack, hstack, cstr_slash]
    simp

theorem enter_directory_pushes_it_witness :
    ({ browserAtMedia with current := 1 } : Browser).DirStack = cstr "/media/" :: []
      ∧ NoNul (cstr "Music")
      ∧ mediaWorld.stat (cstr "/media/" ++ cstr "Music") = some true
      ∧ Selected mediaWorld { browserAtMedia with current := 1 }
        = some (NewDir mediaWorld { browserAtMedia with current := 1 }
            (cstr "/media/" ++ cstr "Music" ++ cstr "/") (some VideoFilters),
          eOSState.osContinue, none)
      ∧ (NewDir mediaWorld { browserAtMedia with current := 1 }
            (cstr "/media/" ++ cstr "Music" ++ cstr "/") (some VideoFilters)).DirStack
        = (cstr "/media/" ++ cstr "Music" ++ cstr "/") :: cstr "/media/" :: [] :=
  ⟨by decide, by decide, by decide,
    enter_directory_pushes_it mediaWorld { browserAtMedia with current := 1 }
      (cstr "/media/") (cstr "Music") [] (by decide) (by decide) (by decide) (by decide)
      (by decide) (by decide) (by decide) (by decide)⟩

/-- C17 as stated fails in a build without `USE_AVFS`: selecting the file
`comics.cbz` at `/media/` hands `/media/comics.cbz` to playback and leaves the
stack as it is. -/
theorem enter_archive_without_avfs_plays_it :
    Selected comicsWorldNoAvfs { browserAtComics with current := 1 }
      = some ({ browserAtComics with current := 1 }, eOSState.osEnd,
          some (cstr "/media/comics.cbz")) := by
  decide

/-- C17 (amended): when the selected item (not the parent link) names a file `e`
(`stat` reports no directory) that ends in an archive suffix, then in a build with
`USE_AVFS` `Selected` plays nothing, calls `NewDir` with the marker path
`DirStack[0] + e + "#"` (stored with the separator appended, at index 0 of the
stack) and returns `osContinue`; in a build without `USE_AVFS` it hands
`DirStack[0] + e` to playback and leaves the stack as it is. -/
theorem enter_archive_descends_in_avfs_build (w : World) (b : Browser) (top e : CStr)
    (rest : List CStr) (hstack : b.DirStack = top :: rest) (hcur : 0 ≤ b.current)
    (hitem : b.items[b.current.toNat]? = some e)
    (hnp : ¬ (b.current = 0 ∧ b.DirStackUsed > 1))
    (hfile : w.stat (top ++ e) = some false)
    (harch : ∃ s ∈ archiveSuffixes, EndsWithCI e s) :
    (w.USE_AVFS = true →
        Selected w b
            = some (NewDir w b (top ++ e ++ cstr "#") b.Filter, eOSState.osContinue, none)
          ∧ (NewDir w b (top ++ e ++ cstr "#") b.Filter).DirStack
            = (top ++ e ++ cstr "#" ++ cstr "/") :: top :: rest)
      ∧ (w.USE_AVFS = false → Selected w b = some (b, eOSState.osEnd, some (top ++ e))) := by
  have htop : b.DirStack.headD [] = top := by rw [hstack]; rfl
  have hsel := Selected_entry w b e hcur hitem hnp
  rw [htop, IsDirectory_of_file _ _ hfile, if_pos rfl] at hsel
  constructor
  · intro havfs
    have harc : IsArchive w.USE_AVFS (top ++ e) ≠ 0 := by
      refine (IsArchive_ne_zero_iff _ _).2 ⟨havfs, ?_⟩
      obtain ⟨s, hs, hends⟩ := harch
      exact ⟨s, hs, EndsWithCI_append top e s hends⟩
    rw [if_pos harc] at hsel
    refine ⟨hsel, ?_⟩
    rw [NewDir_DirStack, hstack]
    have hlast : (top ++ e ++ cstr "#").getLast? ≠ some 47 := by
      have : cstr "#" = [35] := by decide
      rw [this]
      simp
    rw [if_neg hlast]
  · intro havfs
    have harc : ¬ IsArchive w.USE_AVFS (top ++ e) ≠ 0 := by
      intro k
      have := ((IsArchive_ne_zero_iff _ _).1 k).1
      rw [havfs] at this
      cases this
    rw [if_neg harc] at hsel
    exact hsel

theorem enter_archive_descends_in_avfs_build_witness :
    ({ browserAtComics with current := 1 } : Browser).DirStack = cstr "/media/" :: []
      ∧ comicsWorld.stat (cstr "/media/" ++ cstr "comics.cbz") = some false
      ∧ (∃ s ∈ archiveSuffixes, EndsWithCI (cstr "comics.cbz") s)
      ∧ comicsWorld.USE_AVFS = true
      ∧ Selected comicsWorld { browserAtComics with current := 1 }
          = some (NewDir comicsWorld { browserAtComics with current := 1 }
              (cstr "/media/" ++ cstr "comics.cbz" ++ cstr "#") (some ImageFilters),
            eOSState.osContinue, none)
      ∧ (NewDir comicsWorld { browserAtComics with current := 1 }
            (cstr "/media/" ++ cstr "comics.cbz" ++ cstr "#") (some ImageFilters)).DirStack
          = [cstr "/media/comics.cbz#/", cstr "/media/"] :=
  ⟨by decide, by decide, by decide, by decide,
    ((enter_archive_descends_in_avfs_build comicsWorld { browserAtComics with current := 1 }
      (cstr "/media/") (cstr "comics.cbz") [] (by decide) (by decide) (by decide) (by decide)
      (by decide) (by decide)).1 (by decide)).1,
    by decide⟩

/-- C18: when the selected item (not the parent link) names a plain file `e`
(`stat` reports no directory, the path does not end in an archive suffix),
`Selected` hands exactly the path `DirStack[0] + e` to playback, returns `osEnd`
and leaves the browser, its directory stack included, as it is. -/
theorem enter_plain_file_plays_it (w : World) (b : Browser) (top e : CStr)
    (rest : List CStr) (hstack : b.DirStack = top :: rest) (hcur : 0 ≤ b.current)
    (hitem : b.items[b.current.toNat]? = some e)
    (hnp : ¬ (b.current = 0 ∧ b.DirStackUsed > 1))
    (hfile : w.stat (top ++ e) = some false)
    (hplain : ¬ ∃ s ∈ archiveSuffixes, EndsWithCI (top ++ e) s) :
    Selected w b = some (b, eOSState.osEnd, some (top ++ e)) := by
  have htop : b.DirStack.headD [] = top := by rw [hstack]; rfl
  have hsel := Selected_entry w b e hcur hitem hnp
  rw [htop, IsDirectory_of_file _ _ hfile, if_pos rfl] at hsel
  have harc : ¬ IsArchive w.USE_AVFS (top ++ e) ≠ 0 := fun k =>
    hplain ((IsArchive_ne_zero_iff _ _).1 k).2
  rw [if_neg harc] at hsel
  exact hsel

theorem enter_plain_file_plays_it_witness :
    ({ browserAtMedia with current := 3 } : Browser).DirStack = cstr "/media/" :: []
      ∧ mediaWorld.stat (cstr "/media/" ++ cstr "movie.mkv") = some false
      ∧ (¬ ∃ s ∈ archiveSuffixes, EndsWithCI (cstr "/media/" ++ cstr "movie.mkv") s)
      ∧ Selected mediaWorld { browserAtMedia with current := 3 }
          = some ({ browserAtMedia with current := 3 }, eOSState.osEnd,
              some (cstr "/media/movie.mkv")) :=
  ⟨by decide, by decide, by decide,
    enter_plain_file_plays_it mediaWorld { browserAtMedia with current := 3 }
      (cstr "/media/") (cstr "movie.mkv") [] (by decide) (by decide) (by decide) (by decide)
      (by decide) (by decide)⟩

/-- C19: when the selected item (not the parent link) names an entry that `stat`
reports as a directory and whose name is exactly `AUDIO_TS` or `VIDEO_TS`,
`Selected` does not descend: it hands playback `dvdnav:///` followed by
`DirStack[0]`, returns `osEnd` and leaves the browser, its directory stack
included, as it is. -/
theorem enter_dvd_marker_plays_dvdnav (w : World) (b : Browser) (top e : CStr)
    (rest : List CStr) (hstack : b.DirStack = top :: rest) (hcur : 0 ≤ b.current)
    (hitem : b.items[b.current.toNat]? = some e)
    (hnp : ¬ (b.current = 0 ∧ b.DirStackUsed > 1))
    (hdir : w.stat (top ++ e) = some true)
    (hname : e = cstr "AUDIO_TS" ∨ e = cstr "VIDEO_TS") :
    Selected w b = some (b, eOSState.osEnd, some (cstr "dvdnav:///" ++ top)) := by
  have htop : b.DirStack.headD [] = top := by rw [hstack]; rfl
  have hsel := Selected_entry w b e hcur hitem hnp
  rw [htop, IsDirectory_of_dir _ _ hdir, if_neg (by decide)] at hsel
  have hcmp : strcmp e (cstr "AUDIO_TS") = 0 ∨ strcmp e (cstr "VIDEO_TS") = 0 := by
    rcases hname with k | k
    · left
      rw [k]
      decide
    · right
      rw [k]
      decide
  rw [if_pos hcmp] at hsel
  exact hsel

theorem enter_dvd_marker_plays_dvdnav_witness :
    ({ browserAtDvd with current := 1 } : Browser).DirStack = cstr "/media/dvd/" :: []
      ∧ ({ browserAtDvd with current := 1 } : Browser).items[(1 : Int).toNat]?
          = some (cstr "VIDEO_TS")
      ∧ dvdWorld.stat (cstr "/media/dvd/" ++ cstr "VIDEO_TS") = some true
      ∧ Selected dvdWorld { browserAtDvd with current := 1 }
          = some ({ browserAtDvd with current := 1 }, eOSState.osEnd,
              some (cstr "dvdnav:////media/dvd/")) :=
  ⟨by decide, by decide, by decide,
    enter_dvd_marker_plays_dvdnav dvdWorld { browserAtDvd with current := 1 }
      (cstr "/media/dvd/") (cstr "VIDEO_TS") [] (by decide) (by decide) (by decide)
      (by decide) (by decide) (by decide)⟩

/-! ## Leave after Enter: the restored selection -/

theorem afterLast_append_cons (c : Nat) (pre e : CStr) (h : c ∉ e) :
    afterLast c (pre ++ c :: e) = e := by
  induction pre with
  | nil => simp [afterLast, h]
  | cons a t ih =>
    have hm : c ∈ t ++ c :: e := List.mem_append_right t (List.mem_cons_self c e)
    show afterLast c (a :: (t ++ c :: e)) = e
    rw [afterLast, if_pos hm]
    exact ih

/-- The trailing component of `top + e + "/"` is `e`, for a prefix `top` that
ends with the separator and a name `e` without separator. -/
theorem trailingComponent_dir (top e : CStr) (htop : top.getLast? = some 47)
    (hslash : 47 ∉ e) :
    47 ∈ stripSlash (top ++ e ++ cstr "/")
      ∧ trailingComponent (top ++ e ++ cstr "/") = e := by
  obtain ⟨ys, rfl⟩ := List.getLast?_eq_some_iff.1 htop
  have hs : stripSlash (ys ++ [47] ++ e ++ cstr "/") = ys ++ 47 :: e := by
    unfold stripSlash
    rw [cstr_slash, if_pos (List.getLast?_concat _), List.dropLast_concat]
    simp
  unfold trailingComponent
  rw [hs]
  exact ⟨List.mem_append_right ys (List.mem_cons_self 47 e), afterLast_append_cons 47 ys e hslash⟩

/-- The trailing component of the marker path `top + e + "#"` is `e + "#"`. -/
theorem trailingComponent_marker (top e : CStr) (htop : top.getLast? = some 47)
    (hslash : 47 ∉ e) :
    47 ∈ stripSlash (top ++ e ++ cstr "#")
      ∧ trailingComponent (top ++ e ++ cstr "#") = e ++ cstr "#" := by
  obtain ⟨ys, rfl⟩ := List.getLast?_eq_some_iff.1 htop
  have hm : cstr "#" = [35] := by decide
  have hs : stripSlash (ys ++ [47] ++ e ++ cstr "#") = ys ++ 47 :: (e ++ cstr "#") := by
    unfold stripSlash
    rw [hm, if_neg (by rw [List.getLast?_concat]; decide)]
    simp
  have hnot : 47 ∉ e ++ cstr "#" := by
    rw [hm]
    simp [hslash]
  unfold trailingComponent
  rw [hs]
  exact ⟨List.mem_append_right ys (List.mem_cons_self 47 _),
    afterLast_append_cons 47 ys _ hnot⟩

/-- The loop of `LevelUp` makes an item with the text `e` the current one when
the menu has one. -/
theorem selectByName_of_mem (e : CStr) (b : Browser) (hnul : NoNul e)
    (hitems : ∀ t ∈ b.items, NoNul t) (hmem : e ∈ b.items) :
    ∃ i : Nat, selectByName e b = { b with current := (i : Int) } ∧ b.items[i]? = some e := by
  unfold selectByName
  cases h : b.items.findIdx? (fun text => decide (strcmp text e = 0)) with
  | none =>
    have := List.findIdx?_eq_none_iff.1 h e hmem
    have hz : strcmp e e = 0 := (strcmp_eq_zero_iff e e hnul hnul).2 rfl
    simp [hz] at this
  | some i =>
    refine ⟨i, rfl, ?_⟩
    have := List.findIdx?_of_eq_some h
    cases hi : b.items[i]? with
    | none => simp [hi] at this
    | some a =>
      simp only [hi, decide_eq_true_eq] at this
      have ha : a ∈ b.items := List.getElem?_mem hi
      rw [(strcmp_eq_zero_iff a e (hitems a ha) hnul).1 this]

/-- The loop of `LevelUp` leaves the menu as it is when no item has the text. -/
theorem selectByName_of_not_mem (e : CStr) (b : Browser) (hnul : NoNul e)
    (hitems : ∀ t ∈ b.items, NoNul t) (hmem : e ∉ b.items) :
    selectByName e b = b := by
  unfold selectByName
  have h : b.items.findIdx? (fun text => decide (strcmp text e = 0)) = none := by
    refine List.findIdx?_eq_none_iff.2 ?_
    intro x hx
    have : ¬ strcmp x e = 0 := fun k =>
      hmem (((strcmp_eq_zero_iff x e (hitems x hx) hnul).1 k) ▸ hx)
    simp [this]
  rw [h]

/-- Leave after the descent into the directory `e`: the previous top is rescanned
and the selection is restored by the name `e`. -/
theorem leave_after_entering_directory (w1 w2 : World) (b : Browser) (top e : CStr)
    (rest : List CStr) (filter : Option (List NameFilter))
    (hstack : b.DirStack = top :: rest) (htop : top.getLast? = some 47)
    (hslash : 47 ∉ e) :
    LevelUp w2 (NewDir w1 b (top ++ e ++ cstr "/") filter)
      = (selectByName e
          (CreateMenu w2
            { NewDir w1 b (top ++ e ++ cstr "/") filter with DirStack := b.DirStack }),
         eOSState.osContinue) := by
  have hne : b.DirStack ≠ [] := by rw [hstack]; exact List.cons_ne_nil _ _
  obtain ⟨hin, htc⟩ := trailingComponent_dir top e htop hslash
  rw [LevelUp_eq w2 _ (NewDir_DirStackUsed w1 b _ filter hne), NewDir_top,
    poppedName_normalized _ hin, htc]
  rfl

/-- Leave after the descent into the directory `e` makes an item with the text `e`
the current one when the rebuilt list has one, and leaves the rebuilt menu as it
is (first item current) when it has none. -/
theorem leave_after_entering_directory_reselects (w1 w2 : World) (b : Browser)
    (top e : CStr) (rest : List CStr) (filter : Option (List NameFilter))
    (hstack : b.DirStack = top :: rest) (htop : top.getLast? = some 47)
    (hslash : 47 ∉ e) (hnul : NoNul e)
    (hitems : ∀ t ∈ (CreateMenu w2
      { NewDir w1 b (top ++ e ++ cstr "/") filter with DirStack := b.DirStack }).items,
      NoNul t) :
    (e ∈ (CreateMenu w2
          { NewDir w1 b (top ++ e ++ cstr "/") filter with DirStack := b.DirStack }).items →
        ∃ i : Nat,
          (LevelUp w2 (NewDir w1 b (top ++ e ++ cstr "/") filter)).1.current = (i : Int)
            ∧ (LevelUp w2 (NewDir w1 b (top ++ e ++ cstr "/") filter)).1.items[i]? = some e)
      ∧ (e ∉ (CreateMenu w2
          { NewDir w1 b (top ++ e ++ cstr "/") filter with DirStack := b.DirStack }).items →
        (LevelUp w2 (NewDir w1 b (top ++ e ++ cstr "/") filter)).1
          = CreateMenu w2
              { NewDir w1 b (top ++ e ++ cstr "/") filter with DirStack := b.DirStack }) := by
  rw [leave_after_entering_directory w1 w2 b top e rest filter hstack htop hslash]
  constructor
  · intro hmem
    obtain ⟨i, hsel, hi⟩ := selectByName_of_mem e _ hnul hitems hmem
    exact ⟨i, by rw [hsel], by rw [hsel]; exact hi⟩
  · intro hmem
    exact selectByName_of_not_mem e _ hnul hitems hmem

/-- Leave after the descent into the archive `e`: the previous top is rescanned
and the selection is restored by the name `e + "#"`, not by `e`. -/
theorem leave_after_entering_archive (w1 w2 : World) (b : Browser) (top e : CStr)
    (rest : List CStr) (filter : Option (List NameFilter))
    (hstack : b.DirStack = top :: rest) (htop : top.getLast? = some 47)
    (hslash : 47 ∉ e) :
    LevelUp w2 (NewDir w1 b (top ++ e ++ cstr "#") filter)
      = (selectByName (e ++ cstr "#")
          (CreateMenu w2
            { NewDir w1 b (top ++ e ++ cstr "#") filter with DirStack := b.DirStack }),
         eOSState.osContinue) := by
  have hne : b.DirStack ≠ [] := by rw [hstack]; exact List.cons_ne_nil _ _
  obtain ⟨hin, htc⟩ := trailingComponent_marker top e htop hslash
  rw [LevelUp_eq w2 _ (NewDir_DirStackUsed w1 b _ filter hne), NewDir_top,
    poppedName_normalized _ hin, htc]
  rfl

/-- C20, the code at the failing input: in a build with `USE_AVFS`, at `/media/`
with the items `Movies`, `comics.cbz`, `poster.jpg`, Enter on `comics.cbz`
descends into the archive; the Leave that follows rescans `/media/`, derives the
name `comics.cbz#` and, no item having that text, leaves the first item current
although `comics.cbz` is item 1 of the rebuilt list. -/
theorem leave_after_archive_does_not_reselect :
    Selected comicsWorld { browserAtComics with current := 1 }
        = some (NewDir comicsWorld { browserAtComics with current := 1 }
            (cstr "/media/comics.cbz#") (some ImageFilters), eOSState.osContinue, none)
      ∧ poppedName (cstr "/media/comics.cbz#/") = some (cstr "comics.cbz#")
      ∧ (LevelUp comicsWorld (NewDir comicsWorld { browserAtComics with current := 1 }
            (cstr "/media/comics.cbz#") (some ImageFilters))).1.items
          = [cstr "Movies", cstr "comics.cbz", cstr "poster.jpg"]
      ∧ (LevelUp comicsWorld (NewDir comicsWorld { browserAtComics with current := 1 }
            (cstr "/media/comics.cbz#") (some ImageFilters))).1.current = 0 := by
  decide

/-! ## Failures during navigation -/

/-- C21, the code at the failing inputs. Enter: at `/media/` the directory
`Movies` is selected and `/media/Movies/` cannot be opened, so both scans of
`CreateMenu` fail; all the same the stack has the new entry and the entry list
is replaced by the lone parent entry. Leave: from `/media/Music/`, with `/media/`
no longer readable, the stack is popped and the entry list is emptied. -/
theorem failed_scan_still_commits_navigation :
    (browserAtLocked.DirStack = [cstr "/media/"]
        ∧ browserAtLocked.items
            = [cstr "Movies", cstr "Music", cstr "clip.MKV", cstr "movie.mkv"]
        ∧ (ScanDirectory lockedWorld.showHidden lockedWorld.stat
            (lockedWorld.opendir (cstr "/media/Movies/")) (cstr "/media/Movies/") 1 none).ret < 0
        ∧ (ScanDirectory lockedWorld.showHidden lockedWorld.stat
            (lockedWorld.opendir (cstr "/media/Movies/")) (cstr "/media/Movies/") 0
            (some VideoFilters)).ret < 0
        ∧ (Selected lockedWorld browserAtLocked).map (fun r => (r.1.DirStack, r.1.items, r.2.1))
            = some ([cstr "/media/Movies/", cstr "/media/"], [cstr "/media/Movies/"],
                eOSState.osContinue))
      ∧ ((NewDir mediaWorld browserAtMedia (cstr "/media/Music/") (some VideoFilters)).DirStack
            = [cstr "/media/Music/", cstr "/media/"]
        ∧ (NewDir mediaWorld browserAtMedia (cstr "/media/Music/") (some VideoFilters)).items
            = [cstr "/media/Music/", cstr "Music", cstr "clip.MKV", cstr "movie.mkv"]
        ∧ (ScanDirectory goneWorld.showHidden goneWorld.stat
            (goneWorld.opendir (cstr "/media/")) (cstr "/media/") 1 none).ret < 0
        ∧ (LevelUp goneWorld
            (NewDir mediaWorld browserAtMedia (cstr "/media/Music/") (some VideoFilters))).1.DirStack
            = [cstr "/media/"]
        ∧ (LevelUp goneWorld
            (NewDir mediaWorld browserAtMedia (cstr "/media/Music/") (some VideoFilters))).1.items
            = []) := by
  decide

/-- With an index that is out of range for the entry list `Get(current)` is NULL,
and `Selected` dereferences it. -/
theorem Selected_out_of_range (w : World) (b : Browser)
    (h : b.current < 0 ∨ (b.items.length : Int) ≤ b.current) :
    Selected w b = none := by
  unfold Selected
  by_cases hneg : b.current < 0
  · rw [if_pos hneg]
  · rw [if_neg hneg]
    have hlen : b.items.length ≤ b.current.toNat := by
      rcases h with h | h
      · exact absurd h hneg
      · omega
    rw [List.getElem?_eq_none hlen]

/-- C22, the code at the failing input: the browser is opened on an empty
directory, the entry list is empty and no item is current (`Current()` is -1);
`Selected` then calls `Text()` on the NULL that `Get(-1)` returns, which the
model shows as `none`: no state is returned and no recoverable error reported. -/
theorem selected_on_empty_list_dereferences_null :
    browserAtEmpty.items = [] ∧ browserAtEmpty.current = -1
      ∧ Selected emptyWorld browserAtEmpty = none := by
  decide

/-- C23: the constructor with the NULL path replaces the active filter and leaves
the directory stack as it is: the same entries in the same order, the same depth
and the same capacity. -/
theorem open_without_path_keeps_stack (w : World) (b : Browser)
    (filter : Option (List NameFilter)) :
    (cBrowser w b none filter).Filter = filter
      ∧ (cBrowser w b none filter).DirStack = b.DirStack
      ∧ (cBrowser w b none filter).DirStackUsed = b.DirStackUsed
      ∧ (cBrowser w b none filter).DirStackSize = b.DirStackSize :=
  ⟨rfl, rfl, rfl, rfl⟩

/-! ## The plugin menu -/

/-- C27, the code at the failing inputs: in the plugin menu the item `Browse
audio` has the state `osUser7`, which starts the browser with the video table,
`Browse image` and `Browse video` have `osUser8` and `osUser9`, for which
`ProcessKey` does nothing, and `Play audio CD` and `Play video DVD` have
`osUser5` and `osUser6`, which start the browser with the audio and the image
table; nothing is played. Playback of `cdda://` and `dvdnav://` hangs on
`osUser3` and `osUser4`, states that no item has. -/
theorem plugin_menu_items_trigger_other_actions :
    cPlayMenu_ProcessKey (cstr "/media") (selectItem cPlayMenu (cstr "Browse audio")) noBrowser
        = (⟨true, some (cstr "/media"), some VideoFilters⟩, eOSState.osPlugin, none)
      ∧ cPlayMenu_ProcessKey (cstr "/media") (selectItem cPlayMenu (cstr "Browse image"))
          noBrowser = (noBrowser, eOSState.osUser8, none)
      ∧ cPlayMenu_ProcessKey (cstr "/media") (selectItem cPlayMenu (cstr "Browse video"))
          noBrowser = (noBrowser, eOSState.osUser9, none)
      ∧ cPlayMenu_ProcessKey (cstr "/media") (selectItem cPlayMenu (cstr "Play audio CD"))
          noBrowser
        = (⟨true, some (cstr "/media"), some AudioFilters⟩, eOSState.osPlugin, none)
      ∧ cPlayMenu_ProcessKey (cstr "/media") (selectItem cPlayMenu (cstr "Play video DVD"))
          noBrowser
        = (⟨true, some (cstr "/media"), some ImageFilters⟩, eOSState.osPlugin, none)
      ∧ (∀ i ∈ cPlayMenu, i.state ≠ eOSState.osUser3 ∧ i.state ≠ eOSState.osUser4)
      ∧ ((MainMenuAction mediaWorld ⟨true, some (cstr "/media"), some VideoFilters⟩
            ⟨0, [], none, [], -1⟩).2.map (fun b => (b.DirStack, b.Filter))
          = some ([cstr "/media/"], some VideoFilters)) :=
  ⟨by decide, by decide, by decide, by decide, by decide, by decide, by decide⟩

/-! ## The built-in suffix tables -/

theorem matches_tail (name : CStr) (f g : NameFilter) (hf : f.Length = f.String.length)
    (hg : g.Length = g.String.length) (mf : MatchesFilter name f) (mg : MatchesFilter name g)
    (hle : f.Length ≤ g.Length) :
    (g.String.map tolower).drop (g.Length - f.Length) = f.String.map tolower := by
  obtain ⟨lf, cf⟩ := mf
  obtain ⟨lg, cg⟩ := mg
  have ef := (strcasecmp_eq_zero_iff_of_length _ _
    (by simp only [List.length_drop]; omega)).1 cf
  have eg := (strcasecmp_eq_zero_iff_of_length _ _
    (by simp only [List.length_drop]; omega)).1 cg
  rw [← eg, ← ef, ← List.map_drop, List.drop_drop]
  congr 2
  omega

theorem tailFree_exclusive (T : List NameFilter) (hT : TailFree T) (name : CStr)
    (f g : NameFilter) (hf : f ∈ T) (hg : g ∈ T) (mf : MatchesFilter name f)
    (mg : MatchesFilter name g) : f = g := by
  rcases le_total f.Length g.Length with h | h
  · exact (hT f hf g hg).2 h (matches_tail name f g (hT f hf g hg).1 (hT g hg f hf).1 mf mg h)
  · exact ((hT g hg f hf).2 h
      (matches_tail name g f (hT g hg f hf).1 (hT f hf g hg).1 mg mf h)).symm

theorem suffixLoop_perm (name : CStr) (T T2 : List NameFilter) (h : T2.Perm T) :
    suffixLoop name T2 = suffixLoop name T := by
  rw [Bool.eq_iff_iff, suffixLoop_iff, suffixLoop_iff]
  constructor
  · rintro ⟨f, hf, k⟩
    exact ⟨f, h.mem_iff.1 hf, k⟩
  · rintro ⟨f, hf, k⟩
    exact ⟨f, h.mem_iff.2 hf, k⟩

theorem builtinTables_tailFree : ∀ T ∈ builtinTables, TailFree T := by
  decide

/-- C24: in each built-in suffix table (video, audio, image, archive) no name
matches two different entries, and for every name the result of the suffix test
over the table is the same for every ordering of the table. -/
theorem builtin_tables_mutually_exclusive (T : List NameFilter) (hT : T ∈ builtinTables)
    (name : CStr) :
    (∀ f ∈ T, ∀ g ∈ T, MatchesFilter name f → MatchesFilter name g → f = g)
      ∧ ∀ T2 : List NameFilter, T2.Perm T → suffixLoop name T2 = suffixLoop name T :=
  ⟨fun f hf g hg mf mg =>
      tailFree_exclusive T (builtinTables_tailFree T hT) name f g hf hg mf mg,
    fun T2 h => suffixLoop_perm name T T2 h⟩

theorem builtin_tables_mutually_exclusive_witness :
    ArchiveFilters ∈ builtinTables
      ∧ MatchesFilter (cstr "backup.TAR.gz") (FILTER ".tar.gz")
      ∧ (∀ f ∈ ArchiveFilters, ∀ g ∈ ArchiveFilters,
          MatchesFilter (cstr "backup.TAR.gz") f → MatchesFilter (cstr "backup.TAR.gz") g →
          f = g)
      ∧ ∀ T2 : List NameFilter, T2.Perm ArchiveFilters →
          suffixLoop (cstr "backup.TAR.gz") T2 = suffixLoop (cstr "backup.TAR.gz") ArchiveFilters :=
  ⟨by decide, by decide,
    builtin_tables_mutually_exclusive ArchiveFilters (by decide) (cstr "backup.TAR.gz")⟩

/-! ## Capacity of the name array and failing `stat` -/

/-- With a capacity of at least one and not more names than capacity, a round of
the loop keeps both, so the name it stores at index `n - 1` is inside the array. -/
theorem scanStep_within_capacity (showHidden : Bool) (stat : Stat) (name : CStr)
    (flag_dir : Int) (filter : Option (List NameFilter)) (st : ScanState) (r : ReadStep)
    (h1 : 1 ≤ st.arraysz) (h2 : st.n ≤ st.arraysz) :
    1 ≤ (scanStep showHidden stat name flag_dir filter st r).1.arraysz
      ∧ (scanStep showHidden stat name flag_dir filter st r).1.n
          ≤ (scanStep showHidden stat name flag_dir filter st r).1.arraysz := by
  unfold scanStep
  dsimp only
  by_cases c1 : (entryFilter showHidden stat name flag_dir filter r.entry st.errno).1 = 0
  · rw [if_pos c1]
    exact ⟨h1, h2⟩
  · rw [if_neg c1]
    by_cases c2 : r.mallocOk = false
    · rw [if_pos c2]
      exact ⟨h1, h2⟩
    · rw [if_neg c2]
      by_cases c3 : st.n + 1 ≥ st.arraysz
      · rw [if_pos c3]
        cases hf : r.fstat with
        | none => exact ⟨h1, h2⟩
        | some sz =>
          dsimp only
          have hp : st.n + 1 ≤ (if sz / (3 * 4) > st.arraysz then sz / (3 * 4)
              else st.arraysz * 2) := by
            by_cases hc : sz / (3 * 4) > st.arraysz
            · rw [if_pos hc]
              omega
            · rw [if_neg hc]
              omega
          by_cases hr : r.reallocOk = false
          · rw [if_pos hr, if_neg (by omega)]
            exact ⟨by dsimp only; omega, by dsimp only; omega⟩
          · rw [if_neg hr]
            exact ⟨by dsimp only; omega, hp⟩
      · rw [if_neg c3]
        exact ⟨h1, by dsimp only; omega⟩

theorem scanLoop_within_capacity (showHidden : Bool) (stat : Stat) (name : CStr)
    (flag_dir : Int) (filter : Option (List NameFilter)) (readErr : Bool)
    (steps : List ReadStep) :
    ∀ st : ScanState, 1 ≤ st.arraysz → st.n ≤ st.arraysz →
      (scanLoop showHidden stat name flag_dir filter readErr st steps).n
        ≤ (scanLoop showHidden stat name flag_dir filter readErr st steps).arraysz := by
  induction steps with
  | nil =>
    intro st _ h2
    unfold scanLoop
    split_ifs <;> exact h2
  | cons r rest ih =>
    intro st h1 h2
    obtain ⟨k1, k2⟩ := scanStep_within_capacity showHidden stat name flag_dir filter st r h1 h2
    unfold scanLoop
    dsimp only
    split_ifs
    · exact ih _ k1 k2
    · exact k2

/-- When `stat` reports no size or at least 24 bytes for the directory, the
name array starts with a capacity of at least one, and every state the loop
reaches holds no more names than the array has room for. -/
theorem scanLoop_within_capacity_of_size (showHidden : Bool) (stat : Stat) (name : CStr)
    (flag_dir : Int) (filter : Option (List NameFilter)) (readErr : Bool)
    (steps : List ReadStep) (st_size : Nat) (h : st_size = 0 ∨ 24 ≤ st_size) :
    (scanLoop showHidden stat name flag_dir filter readErr
        ⟨0, [], if st_size ≠ 0 then st_size / (3 * 8) else 16, 0, false⟩ steps).n
      ≤ (scanLoop showHidden stat name flag_dir filter readErr
        ⟨0, [], if st_size ≠ 0 then st_size / (3 * 8) else 16, 0, false⟩ steps).arraysz := by
  apply scanLoop_within_capacity
  · show 1 ≤ (if st_size ≠ 0 then st_size / (3 * 8) else 16)
    by_cases hz : st_size ≠ 0
    · rw [if_pos hz]
      omega
    · rw [if_neg hz]
      omega
  · exact Nat.zero_le _

/-- C25, the code at the failing input: `stat` reports 10 bytes for the directory
(at both calls), so the array starts with `arraysz = 10 / 24 = 0`; for the first
accepted name `++n >= arraysz` holds, `10 / 12 > 0` fails and `arraysz *= 2`
leaves 0; `realloc(names, 0)` returns a block and the name is stored at index 0
of an array of capacity 0. The loop ends with one name and `arraysz = 0`, and
the scan returns that name. -/
theorem scan_stores_name_beyond_capacity :
    (if (10 : Nat) ≠ 0 then 10 / (3 * 8) else 16) = 0
      ∧ scanStep false mediaStat (cstr "/media/") 0 none ⟨0, [], 0, 0, false⟩
          ⟨⟨cstr "a.mkv", DType.DT_REG⟩, true, some 10, true⟩
        = (⟨1, [cstr "a.mkv"], 0, 0, false⟩, true)
      ∧ ScanDirectory false mediaStat tinyDir (cstr "/media/") 0 none
        = ⟨1, NameList.names [cstr "a.mkv"]⟩ := by
  decide

/-- In a directory that reports 10 bytes and holds `a.mkv` and then a dangling
link, with the allocator of glibc, the loop is left in the round for `a.mkv`:
the dangling link is never looked at, no `stat` fails, and the scan returns 0
with the freed array. -/
theorem tiny_scan_leaves_loop_before_dangling_link :
    scanPrefix false danglingStat (cstr "/media/") 0 none ⟨0, [], 0, 0, false⟩
        [⟨⟨cstr "a.mkv", DType.DT_REG⟩, true, some 10, false⟩] = none
      ∧ ScanDirectory false danglingStat tinyDanglingDir (cstr "/media/") 0 none
          = ⟨0, NameList.freed⟩ := by
  decide

end Play
